import Mathlib

/-!
# Verification of the planner generator (`main.go`)

Shallow embedding of the planner program: the Go `time` package's civil-date
arithmetic (as used through `time.Date`, `AddDate`, `Weekday`, `Month`, `Day`),
the program's calendar decomposition `monthWeeks`, the hyperlink registry
`Links` with its two-phase allocate-then-render build `buildPlanner`, and the
`dotGrid` drawing loop.

Dates are represented by their absolute day number (`Nat`): day `0` is
January 1 of year 1, which is a Monday (exactly Go's absolute-time convention).
The `"YYYY-MM-DD"` keys produced by `Format("2006-01-02")` are in bijection
with absolute day numbers, so the `Days` map is keyed by the day number.
The modelled domain is years `1 ≤ y` (the proleptic-Gregorian years the Go
code computes with, restricted to the positive range a planner uses).
-/

/-- Go `time.isLeap`: `year%4 == 0 && (year%100 != 0 || year%400 == 0)`. -/
def isLeap (y : Nat) : Bool := y % 4 == 0 && (y % 100 != 0 || y % 400 == 0)

/-- Go `time.daysBefore`: cumulative days in a non-leap year before month `m+1`
begins; index `0..12` of the array `[0,31,59,...,334,365]`. -/
def daysBefore : Nat → Nat
  | 0 => 0
  | 1 => 31
  | 2 => 59
  | 3 => 90
  | 4 => 120
  | 5 => 151
  | 6 => 181
  | 7 => 212
  | 8 => 243
  | 9 => 273
  | 10 => 304
  | 11 => 334
  | _ => 365

/-- Days from January 1 of year 1 to January 1 of year `y` (for `1 ≤ y`):
Go `time.daysSinceEpoch`'s 400/100/4/1-year cycle chain, re-based so that
year 1 is day 0 (Go's `absoluteZeroYear` is congruent to 1 mod 400). -/
def daysBeforeYear (y : Nat) : Nat :=
  let r := y - 1
  let n400 := r / 400
  let r := r - 400 * n400
  let n100 := r / 100
  let r := r - 100 * n100
  let n4 := r / 4
  let r := r - 4 * n4
  146097 * n400 + 36524 * n100 + 1461 * n4 + 365 * r

/-- Go `time.norm(year, int(month)-1, 12)` for the non-negative months this
program passes (`1..13`): carry month overflow into the year, returning the
normalized (year, month) with month in `1..12`. -/
def normM (y m : Nat) : Nat × Nat := (y + (m - 1) / 12, (m - 1) % 12 + 1)

/-- Go `time.Date(y, m, d, 0,0,0,0, UTC)` as an absolute day number
(day 0 = Jan 1 of year 1): normalize the month, add days before the year,
days before the month, the Feb 29 correction (`month >= March` in a leap
year), and `day - 1`. Faithful for the program's domain (`1 ≤ y`; `d = 0`
only ever with a month whose first day is not day 0). -/
def goDate (y m d : Nat) : Nat :=
  let y' := (normM y m).1
  let m' := (normM y m).2
  daysBeforeYear y' + daysBefore (m' - 1) +
    (if isLeap y' && 3 ≤ m' then 1 else 0) + d - 1

/-- Go `time.Time.Weekday` of an absolute day number: Sunday = 0; day 0
(Jan 1, year 1) is a Monday, so the weekday is `(n + 1) % 7`. -/
def weekday (n : Nat) : Nat := (n + 1) % 7

/-- Year/day-of-year stage of Go `time.absDate`: peel off 400-year, 100-year
and 4-year cycles and single years (with the `n -= n >> 2` corrections that
cap the 100-year and 1-year counts at 3). Returns `(year, yday)` with `yday`
0-based. -/
def absYearYday (n : Nat) : Nat × Nat :=
  let d := n
  let q400 := d / 146097
  let y := 400 * q400
  let d := d - 146097 * q400
  let q100 := d / 36524
  let q100 := q100 - q100 / 4
  let y := y + 100 * q100
  let d := d - 36524 * q100
  let q4 := d / 1461
  let y := y + 4 * q4
  let d := d - 1461 * q4
  let q1 := d / 365
  let q1 := q1 - q1 / 4
  let y := y + q1
  let d := d - 365 * q1
  (y + 1, d)

/-- Go `time.absDate(abs, full=true)`: civil `(year, month, day)` from an
absolute day number. After the year split, the leap day is special-cased
(`yday = 59` is Feb 29; later ydays pretend it was not there), the month is
estimated as `day/31` and corrected against the `daysBefore` table, exactly
as the Go source does. -/
def absDate (n : Nat) : Nat × Nat × Nat :=
  let p := absYearYday n
  let year := p.1
  let yday := p.2
  if isLeap year && yday == 59 then (year, 2, 29)
  else
    let day := if isLeap year && 59 < yday then yday - 1 else yday
    let est := day / 31
    if daysBefore (est + 1) ≤ day then
      (year, est + 2, day - daysBefore (est + 1) + 1)
    else
      (year, est + 1, day - daysBefore est + 1)

/-- Go `time.daysIn(m, year)`: the number of days of month `m` of year `y`
(Gregorian, via the `daysBefore` table with the February leap case). -/
def daysIn (y m : Nat) : Nat :=
  if m = 2 && isLeap y then 29 else daysBefore m - daysBefore (m - 1)

/-- The week-accumulation loop of `monthWeeks` (`for { ... }` in the Go
source), with structural fuel so the definition computes: build the 7-day
week starting at `cur`, advance `cur` by 7, and stop once `cur` is strictly
past `last` and is a Monday. `monthWeeks` supplies fuel that is proven
sufficient (`weeksLoop_eq_of_fuel`), so the `[]` fuel-exhaustion branch is
never taken. -/
def weeksLoop : Nat → Nat → Nat → List (List Nat)
  | 0, _, _ => []
  | fuel + 1, last, cur =>
    let week := (List.range 7).map (fun i => cur + i)
    if last < cur + 7 && weekday (cur + 7) == 1 then [week]
    else week :: weeksLoop fuel last (cur + 7)

/-- Go `monthWeeks(year, month)` (main.go:51-73): `first` and `last` day of
the month via `time.Date` (day 0 of `month+1` is the last day of `month`),
the Monday-first offset `(weekday(first)+6) % 7`, and the week loop starting
`offset` days before the 1st. -/
def monthWeeks (year month : Nat) : List (List Nat) :=
  let first := goDate year month 1
  let last := goDate year (month + 1) 0
  let offset := (weekday first + 6) % 7
  let start := first - offset
  weeksLoop ((last - start) / 7 + 1) last start

/-- First day of the month: `time.Date(year, month, 1, ...)` in `monthWeeks`. -/
def firstOfMonth (y m : Nat) : Nat := goDate y m 1

/-- Last day of the month: `time.Date(year, month+1, 0, ...)` in `monthWeeks`. -/
def lastOfMonth (y m : Nat) : Nat := goDate y (m + 1) 0

/-- The Monday-first offset of `monthWeeks`: `(int(first.Weekday()) + 6) % 7`. -/
def mwOffset (y m : Nat) : Nat := (weekday (firstOfMonth y m) + 6) % 7

/-- The start cursor of `monthWeeks`: `first.AddDate(0, 0, -offset)`. -/
def mwStart (y m : Nat) : Nat := firstOfMonth y m - mwOffset y m

/-- Number of weeks the `monthWeeks` loop emits (used as its fuel;
`weeksLoop_eq` proves any fuel at least this value gives the same list). -/
def mwCount (y m : Nat) : Nat := (lastOfMonth y m - mwStart y m) / 7 + 1

/-- Go `t.Year()` of an absolute day number. -/
def yearOf (x : Nat) : Nat := (absDate x).1

/-- Go `t.Month()` of an absolute day number (as used in `int(d.Month()) == m`). -/
def monthOf (x : Nat) : Nat := (absDate x).2.1

/-- Go `t.Day()` of an absolute day number (as used in `monthPage`). -/
def dayOf (x : Nat) : Nat := (absDate x).2.2

/-!
## The planner build model

The drawing/output collaborator (`fpdf`) is external to the repository and
is consumed through the narrow interface of the spec (section 6): register a
forward-referenceable anchor (`AddLink`), bind it to a page (`SetLink`), draw
a clickable region bound to an anchor (`Link`), add pages. `AddLink` is
modelled from the spec: it returns a fresh opaque nonzero handle (1, 2, 3, …
in allocation order); zero is the "no link" sentinel. Geometry constants are
exact rationals standing for the Go float64 values, all of which are exactly
representable. The `"2006-01-02"` date keys are replaced by the absolute day
number, which is in bijection with them.
-/

/-- `Layout` (main.go:11-22). -/
structure Layout where
  PageSize : String
  Margin : Rat
  Font : String
  TitleSize : Rat
  SubTitleSize : Rat
  BodySize : Rat
  GridSpacingPt : Rat
  ShowWeeks : Bool
  ShowDays : Bool
  ShowCollections : Bool
deriving DecidableEq

/-- `PlannerConfig` (main.go:25-29). -/
structure PlannerConfig where
  Year : Nat
  Output : String
  Layout : Layout
deriving DecidableEq

/-- `Links` (main.go:32-39): the centralized hyperlink registry. Go maps are
modelled as association lists in insertion order with the zero-value read
default; the `[12]int` month array as a 12-element list. -/
structure Links where
  Year : Nat
  Months : List Nat
  Weeks : List (Nat × List Nat)
  Days : List (Nat × Nat)
  Collections : List (String × Nat)
  Hubs : List (String × Nat)
deriving DecidableEq

/-- `newLinks` (main.go:41-48); the `[12]int` starts as Go's zero value. -/
def newLinks : Links :=
  { Year := 0, Months := List.replicate 12 0, Weeks := [], Days := [],
    Collections := [], Hubs := [] }

/-- Go map read `links.Days[key]` with the zero default for a missing key. -/
def mapGetN (l : List (Nat × Nat)) (k : Nat) : Nat :=
  match l.find? (fun p => p.1 == k) with
  | some p => p.2
  | none => 0

/-- Go map read `links.Collections[name]` / `links.Hubs[name]`. -/
def mapGetS (l : List (String × Nat)) (k : String) : Nat :=
  match l.find? (fun p => p.1 == k) with
  | some p => p.2
  | none => 0

/-- Go map read `links.Weeks[m]` (missing key reads as the empty slice). -/
def weeksGet (l : List (Nat × List Nat)) (k : Nat) : List Nat :=
  match l.find? (fun p => p.1 == k) with
  | some p => p.2
  | none => []

/-- A logical allocation target, used to record the allocation order. -/
inductive Target where
  | year : Target
  | month : Nat → Target
  | week : Nat → Nat → Target
  | day : Nat → Target
  | hub : Target
  | coll : String → Target
deriving DecidableEq

/-- State of the modelled `fpdf` allocator: the next fresh handle and the
allocation event trace (target, handle) in order. -/
structure AllocSt where
  next : Nat
  events : List (Target × Nat)
deriving DecidableEq

/-- Modelled from the spec: `pdf.AddLink()` returns a fresh opaque nonzero
handle; handles are issued sequentially starting at 1 so that zero remains
the "no link for this feature" sentinel (spec sections 4.2 and 6). -/
def addLink (t : Target) (s : AllocSt) : Nat × AllocSt :=
  (s.next, { next := s.next + 1, events := s.events ++ [(t, s.next)] })

/-- The `for i := range weeks { links.Weeks[m][i] = pdf.AddLink() }` loop of
`buildPlanner` (main.go:327-329): allocate `n` week handles for month `m`
starting at week index `i`. -/
def allocWeeksAux (m i n : Nat) (s : AllocSt) : List Nat × AllocSt :=
  match n with
  | 0 => ([], s)
  | n + 1 =>
    let (h, s1) := addLink (.week m i) s
    let (rest, s2) := allocWeeksAux m (i + 1) n s1
    (h :: rest, s2)

/-- The day-allocation loop of `buildPlanner` (main.go:330-339): for every
date of every week of month `m`, if the date's month is `m` and it has no
handle yet, allocate one. -/
def allocDaysAux (m : Nat) (ds : List Nat) (links : Links) (s : AllocSt) :
    Links × AllocSt :=
  match ds with
  | [] => (links, s)
  | d :: rest =>
    if monthOf d = m ∧ mapGetN links.Days d = 0 then
      let (h, s1) := addLink (.day d) s
      allocDaysAux m rest { links with Days := links.Days ++ [(d, h)] } s1
    else
      allocDaysAux m rest links s

/-- The per-month body of the allocation pass (main.go:323-340). -/
def allocMonthsAux (year : Nat) (ms : List Nat) (links : Links) (s : AllocSt) :
    Links × AllocSt :=
  match ms with
  | [] => (links, s)
  | m :: rest =>
    let (hm, s1) := addLink (.month m) s
    let weeks := monthWeeks year m
    let (whs, s2) := allocWeeksAux m 0 weeks.length s1
    let links1 := { links with Months := links.Months.set (m - 1) hm,
                               Weeks := links.Weeks ++ [(m, whs)] }
    let (links2, s3) := allocDaysAux m weeks.flatten links1 s2
    allocMonthsAux year rest links2 s3

/-- The allocation pass of `buildPlanner` (main.go:321-346): year anchor,
then per month the month anchor, week anchors and deduplicated day anchors
(weeks and days are allocated regardless of the feature flags), then the
collections hub and collection anchors when collections are enabled. -/
def allocPass (cfg : PlannerConfig) : Links × AllocSt :=
  let s0 : AllocSt := { next := 1, events := [] }
  let r1 := addLink .year s0
  let links1 := { newLinks with Year := r1.1 }
  let r2 := allocMonthsAux cfg.Year ((List.range 12).map (· + 1)) links1 r1.2
  if cfg.Layout.ShowCollections then
    let r3 := addLink .hub r2.2
    let r4 := addLink (.coll "Writing") r3.2
    let r5 := addLink (.coll "Ideas") r4.2
    let r6 := addLink (.coll "OOO") r5.2
    ({ r2.1 with Hubs := [("Collections", r3.1)],
                 Collections := [("Writing", r4.1), ("Ideas", r5.1),
                   ("OOO", r6.1)] }, r6.2)
  else
    r2

/-- A clickable region bound to an anchor: `pdf.Link(x, y, w, h, target)`. -/
structure RectLink where
  x : Rat
  y : Rat
  w : Rat
  h : Rat
  target : Nat
deriving DecidableEq

/-- Page width in points of the two page-size classes selected in
`buildPlanner` (main.go:302-314): fpdf "Letter" is 612 pt wide, the custom
PaperPro size is 504 pt. -/
def pageWidth (l : Layout) : Rat := if l.PageSize = "PaperPro" then 504 else 612

/-- `addNav` (main.go:114-130): a Back link region at the top-left and a
Home link region at the top-right, each drawn only when its handle is
nonzero, at the exact rectangles of the source (`0.6 = 3/5`). -/
def addNav (l : Layout) (pageW : Rat) (homeLink backLink : Nat) : List RectLink :=
  (if backLink ≠ 0 then
    [{ x := l.Margin, y := l.Margin * (3/5), w := 42, h := 16, target := backLink }]
  else []) ++
  (if homeLink ≠ 0 then
    [{ x := pageW - l.Margin - 60, y := l.Margin * (3/5), w := 60, h := 16,
       target := homeLink }]
  else [])

/-- The cells of `gridLinks` (main.go:132-160): the i-th label paired with
the i-th anchor (0 when the anchors list is shorter); a cell's clickable
region is drawn only when its anchor is nonzero, which `gridTargets` below
reflects. -/
def gridCells (labels : List String) (anchors : List Nat) : List (String × Nat) :=
  (List.range labels.length).map (fun i => (labels.getD i "", anchors.getD i 0))

/-- The link targets `gridLinks` actually draws: the nonzero anchors. -/
def gridTargets (cells : List (String × Nat)) : List Nat :=
  (cells.filter (fun c => c.2 ≠ 0)).map (fun c => c.2)

/-- One week row of the month page's left column (main.go:207-215). -/
structure WeekRow where
  monday : Nat
  sunday : Nat
  link : Option Nat
deriving DecidableEq

/-- One day cell of the month page's right column (main.go:221-231). -/
structure DayCell where
  dayNum : Nat
  link : Option Nat
deriving DecidableEq

/-- One date row of a week page (main.go:243-256): `gray` is the
de-emphasized text color (`SetTextColor(140,140,140)`) used for dates
outside the containing month. -/
structure WeekDayRow where
  date : Nat
  gray : Bool
  link : Option Nat
deriving DecidableEq

/-- The drawn content of one emitted page, as far as anchors, links, rows
and colors are concerned (text strings and cursor-dependent row geometry are
not modelled; nav-bar link rectangles are). `bound` is the handle the page
binds to itself with `pdf.SetLink(・, 0, pdf.PageNo())`. -/
inductive PageOut where
  | yearP (bound : Nat) (monthCells : List (String × Nat))
      (collCells : List (String × Nat)) : PageOut
  | monthP (m : Nat) (bound : Nat) (nav : List RectLink)
      (weekRows : List WeekRow) (dayCells : List DayCell) : PageOut
  | weekP (m idx : Nat) (bound : Nat) (nav : List RectLink)
      (rows : List WeekDayRow) : PageOut
  | dayP (date : Nat) (bound : Nat) (nav : List RectLink) : PageOut
  | hubP (bound : Nat) (nav : List RectLink) (cells : List (String × Nat)) : PageOut
  | collP (name : String) (bound : Nat) (nav : List RectLink) : PageOut
deriving DecidableEq

/-- Month labels of the year page (main.go:172). -/
def monthLabels : List String :=
  ["Jan", "Feb", "Mar", "Apr", "May", "Jun", "Jul", "Aug", "Sep", "Oct", "Nov", "Dec"]

/-- The fixed collection names (main.go:181, 279, 373). -/
def collNames : List String := ["Writing", "Ideas", "OOO"]

/-- `yearPage` (main.go:163-189): binds the year anchor, a 12-month grid of
links, and (when collections are enabled) a 3-collection grid. -/
def yearPage (cfg : PlannerConfig) (links : Links) : PageOut :=
  .yearP links.Year (gridCells monthLabels links.Months)
    (if cfg.Layout.ShowCollections then
      gridCells collNames
        [mapGetS links.Collections "Writing", mapGetS links.Collections "Ideas",
         mapGetS links.Collections "OOO"]
    else [])

/-- `monthPage` (main.go:191-232): binds the month anchor, navigation with
home = year and back = 0, the week rows (linked when `ShowWeeks`), and the
day-number column computed from `time.Date(year, month+1, 0).Day()` (linked
when `ShowDays`). -/
def monthPage (cfg : PlannerConfig) (links : Links) (month : Nat) : PageOut :=
  let weeks := monthWeeks cfg.Year month
  let daysInMonth := dayOf (goDate cfg.Year (month + 1) 0)
  .monthP month (links.Months.getD (month - 1) 0)
    (addNav cfg.Layout (pageWidth cfg.Layout) links.Year 0)
    ((List.range weeks.length).map (fun idx =>
      let wk := weeks.getD idx []
      { monday := wk.getD 0 0, sunday := wk.getD 6 0,
        link := if cfg.Layout.ShowWeeks then
            some ((weeksGet links.Weeks month).getD idx 0)
          else none }))
    ((List.range daysInMonth).map (fun i =>
      { dayNum := i + 1,
        link := if cfg.Layout.ShowDays then
            some (mapGetN links.Days (goDate cfg.Year month (i + 1)))
          else none }))

/-- `weekPage` (main.go:234-258): binds the week anchor, navigation with
home = year and back = the month anchor, and the 7 date rows; a row is gray
iff its date's month differs from the containing month, and is linked iff
`ShowDays` and the date belongs to the containing month. -/
def weekPage (cfg : PlannerConfig) (links : Links) (month idx : Nat)
    (days : List Nat) : PageOut :=
  .weekP month idx ((weeksGet links.Weeks month).getD idx 0)
    (addNav cfg.Layout (pageWidth cfg.Layout) links.Year
      (links.Months.getD (month - 1) 0))
    (days.map (fun d =>
      { date := d, gray := decide (monthOf d ≠ month),
        link := if cfg.Layout.ShowDays ∧ monthOf d = month then
            some (mapGetN links.Days d)
          else none }))

/-- `dayPage` (main.go:260-269): binds the date's day anchor, navigation
with home = year and the caller-supplied back link. -/
def dayPage (cfg : PlannerConfig) (links : Links) (d : Nat) (back : Nat) : PageOut :=
  .dayP d (mapGetN links.Days d)
    (addNav cfg.Layout (pageWidth cfg.Layout) links.Year back)

/-- `collectionsHub` (main.go:271-286). -/
def collectionsHub (cfg : PlannerConfig) (links : Links) : PageOut :=
  .hubP (mapGetS links.Hubs "Collections")
    (addNav cfg.Layout (pageWidth cfg.Layout) links.Year 0)
    (gridCells collNames
      [mapGetS links.Collections "Writing", mapGetS links.Collections "Ideas",
       mapGetS links.Collections "OOO"])

/-- `collectionPage` (main.go:288-296). -/
def collectionPage (cfg : PlannerConfig) (links : Links) (name : String) : PageOut :=
  .collP name (mapGetS links.Collections name)
    (addNav cfg.Layout (pageWidth cfg.Layout) links.Year
      (mapGetS links.Hubs "Collections"))

/-- The week body of the render pass (main.go:356-366): the week page, then
(when `ShowDays`) a day page for every in-month date of the week, with back
link `links.Weeks[month][idx]`. -/
def weekBlock (cfg : PlannerConfig) (links : Links) (month idx : Nat)
    (wk : List Nat) : List PageOut :=
  weekPage cfg links month idx wk ::
    (if cfg.Layout.ShowDays then
      (wk.filter (fun d => monthOf d == month)).map (fun d =>
        dayPage cfg links d ((weeksGet links.Weeks month).getD idx 0))
    else [])

/-- The month body of the render pass (main.go:352-368). -/
def monthBlock (cfg : PlannerConfig) (links : Links) (month : Nat) : List PageOut :=
  monthPage cfg links month ::
    (if cfg.Layout.ShowWeeks then
      ((monthWeeks cfg.Year month).enum).flatMap (fun p =>
        weekBlock cfg links month p.1 p.2)
    else [])

/-- The render pass of `buildPlanner` (main.go:348-377): year page, the 12
month blocks, then (when enabled) the collections hub and the three
collection pages, in source order. -/
def renderPass (cfg : PlannerConfig) (links : Links) : List PageOut :=
  yearPage cfg links ::
    ((List.range 12).flatMap (fun i => monthBlock cfg links (i + 1)) ++
      (if cfg.Layout.ShowCollections then
        collectionsHub cfg links :: collNames.map (collectionPage cfg links)
      else []))

/-- `buildPlanner` (main.go:299-379): the allocation pass followed by the
render pass over the resulting registry. -/
def buildPlanner (cfg : PlannerConfig) : List PageOut :=
  renderPass cfg (allocPass cfg).1

/-- The allocation event trace of a build (targets with their handles, in
allocation order). -/
def allocEvents (cfg : PlannerConfig) : List (Target × Nat) :=
  (allocPass cfg).2.events

/-- The handle a page binds to itself (`pdf.SetLink`). -/
def PageOut.bound : PageOut → Nat
  | .yearP b _ _ => b
  | .monthP _ b _ _ _ => b
  | .weekP _ _ b _ _ => b
  | .dayP _ b _ => b
  | .hubP b _ _ => b
  | .collP _ b _ => b

/-- Every link target a page draws (`pdf.Link` calls), in drawing order:
nav bar regions, grid cells with nonzero anchors, linked week rows, linked
day cells and linked week-day rows. -/
def PageOut.linkTargets : PageOut → List Nat
  | .yearP _ mc cc => gridTargets mc ++ gridTargets cc
  | .monthP _ _ nav wr dc =>
      nav.map (fun r => r.target) ++ wr.filterMap (fun r => r.link) ++
        dc.filterMap (fun c => c.link)
  | .weekP _ _ _ nav rows =>
      nav.map (fun r => r.target) ++ rows.filterMap (fun r => r.link)
  | .dayP _ _ nav => nav.map (fun r => r.target)
  | .hubP _ nav cells => nav.map (fun r => r.target) ++ gridTargets cells
  | .collP _ _ nav => nav.map (fun r => r.target)

/-- Is this a day page? -/
def PageOut.isDay : PageOut → Bool
  | .dayP _ _ _ => true
  | _ => false

/-- Is this a week page? -/
def PageOut.isWeek : PageOut → Bool
  | .weekP _ _ _ _ _ => true
  | _ => false

/-- The binding (`SetLink`) wiring of a page list: the bound handle of each
page with its 1-based page number. -/
def bindings (ps : List PageOut) : List (Nat × Nat) :=
  ps.enum.map (fun p => (p.2.bound, p.1 + 1))

/-- The navigation-relevant wiring of a page list, without geometry: for
each page its bound handle and its drawn link targets. -/
def wiring (ps : List PageOut) : List (Nat × List Nat) :=
  ps.map (fun p => (p.bound, p.linkTargets))

/-!
## The `dotGrid` loop over float64

`dotGrid` (main.go:84-95) iterates float64 cursors: `for y := top+sp; y <
bottom; y += sp` with an inner `for x := left+sp; x < right; x += sp` loop,
over `right := w - margin`, `bottom := h - margin`. Binary64 values and
arithmetic are modelled exactly: a finite double is a rational `m * 2^e`
with `|m| < 2^53` and `-1074 <= e`, and each addition/subtraction rounds its
exact rational result to nearest, ties to even, on the binary64 grid at the
result's magnitude (`expOf`, floored at the subnormal limit). Overflow to
infinity is not modelled: the planner's loop bounds are far below `2^1024`,
where a saturated and an unbounded sum both already exceed the bound, so
every loop observation agrees. Fuel makes divergence expressible: `none`
means the loop has run at least `fuel` iterations.
-/

/-- The binary64 rounding exponent at magnitude `|q|`: 52 bits below the
leading binary digit, floored at the subnormal limit `2^(-1074)`. -/
def expOf (q : Rat) : Int := max (-1074) (Int.log 2 |q| - 52)

/-- Round a rational to the nearest integer, ties to even. -/
def rndInt (s : Rat) : Int :=
  if s - ⌊s⌋ < 1/2 then ⌊s⌋
  else if 1/2 < s - ⌊s⌋ then ⌊s⌋ + 1
  else if 2 ∣ ⌊s⌋ then ⌊s⌋ else ⌊s⌋ + 1

/-- IEEE-754 binary64 rounding (to nearest, ties to even) of an exact
rational: scale onto the rounding grid at `|q|`'s magnitude, round to an
integer, scale back. -/
def roundF (q : Rat) : Rat :=
  if q = 0 then 0 else (rndInt (q * 2 ^ (-expOf q)) : Rat) * 2 ^ expOf q

/-- Go float64 addition: the exact sum, rounded to binary64. -/
def fadd (a b : Rat) : Rat := roundF (a + b)

/-- The inner x loop of `dotGrid` over float64:
`for x := left+sp; x < right; x += sp`. -/
def dotRowF : Nat → Rat → Rat → Rat → Option (List Rat)
  | 0, _, _, _ => none
  | fuel + 1, x, right, sp =>
    if x < right then (dotRowF fuel (fadd x sp) right sp).map (fun r => x :: r)
    else some []

/-- The outer y loop of `dotGrid` over float64:
`for y := top+sp; y < bottom; y += sp`, running the inner loop each
iteration. -/
def dotGridF : Nat → Rat → Rat → Rat → Rat → Rat → Option (List (Rat × Rat))
  | 0, _, _, _, _, _ => none
  | fuel + 1, y, bottom, left, right, sp =>
    if y < bottom then
      match dotRowF (fuel + 1) (fadd left sp) right sp with
      | none => none
      | some xs =>
        (dotGridF fuel (fadd y sp) bottom left right sp).map
          (fun rest => xs.map (fun x => (x, y)) ++ rest)
    else some []

/-- `dotGrid` (main.go:84-95) over modelled float64 arithmetic: margins
inset from the `w × h` page (`right`/`bottom` are float subtractions), dots
spaced by `GridSpacingPt` starting one spacing in from the top-left. -/
def dotGridFloat (l : Layout) (w h : Rat) (fuel : Nat) :
    Option (List (Rat × Rat)) :=
  dotGridF fuel (fadd l.Margin l.GridSpacingPt) (roundF (h - l.Margin))
    l.Margin (roundF (w - l.Margin)) l.GridSpacingPt

/-!
## Concrete configurations and page-list observations
-/

/-- The layout `main` builds (main.go:395-407): fixed margins and font
sizes, the given page size and grid spacing, `ShowWeeks`/`ShowDays` from the
`--full` flag, collections always on. -/
def mainLayout (page : String) (grid : Rat) (full : Bool) : Layout :=
  { PageSize := page, Margin := 36, Font := "Helvetica", TitleSize := 24,
    SubTitleSize := 14, BodySize := 12, GridSpacingPt := grid,
    ShowWeeks := full, ShowDays := full, ShowCollections := true }

/-- The `--year 2025 --full` run with the default page and grid flags. -/
def fullConfig2025 : PlannerConfig :=
  { Year := 2025, Output := "journal.pdf", Layout := mainLayout "Letter" 22 true }

/-- A default (`full=false`) run at year 2024 (spec scenario 1). -/
def minimalConfig2024 : PlannerConfig :=
  { Year := 2024, Output := "journal.pdf", Layout := mainLayout "Letter" 22 false }

/-- The nav-bar link rectangles a page draws. -/
def PageOut.navRects : PageOut → List RectLink
  | .yearP _ _ _ => []
  | .monthP _ _ nav _ _ => nav
  | .weekP _ _ _ nav _ => nav
  | .dayP _ _ nav => nav
  | .hubP _ nav _ => nav
  | .collP _ _ nav => nav

/-- Is this a month page? -/
def PageOut.isMonth : PageOut → Bool
  | .monthP _ _ _ _ _ => true
  | _ => false

/-- The dates of the emitted day pages, in emission order. -/
def dayDates (ps : List PageOut) : List Nat :=
  ps.filterMap (fun p => match p with
    | .dayP d _ _ => some d
    | _ => none)

/-- `(month, week-row count, day-cell count)` of each month page, in order. -/
def monthRowStats (ps : List PageOut) : List (Nat × Nat × Nat) :=
  ps.filterMap (fun p => match p with
    | .monthP m _ _ wr dc => some (m, wr.length, dc.length)
    | _ => none)

/-- The number of date rows of each week page, in order. -/
def weekRowCounts (ps : List PageOut) : List Nat :=
  ps.filterMap (fun p => match p with
    | .weekP _ _ _ _ rows => some rows.length
    | _ => none)

/-!
## Correctness of the civil-date conversions

The central fact: `absDate` inverts `goDate` on every valid civil date
(year at least 1, month 1..12, day within the month). Proved by decomposing
`y - 1 = 400a + 100b + 4c + e` and walking Go's cycle chain.
-/

theorem isLeap_iff (y : Nat) :
    isLeap y = true ↔ (y % 4 = 0 ∧ (y % 100 ≠ 0 ∨ y % 400 = 0)) := by
  simp [isLeap]

theorem absYearYday_leaf1 (a b c e yd : Nat) (hb : b ≤ 3) (hc : c ≤ 24) (he : e ≤ 3)
    (hyd : yd ≤ 364) :
    absYearYday (146097 * a + 36524 * b + 1461 * c + 365 * e + yd)
      = (400 * a + 100 * b + 4 * c + e + 1, yd) := by
  have h1 : (146097 * a + 36524 * b + 1461 * c + 365 * e + yd) / 146097 = a := by omega
  have h2 : 146097 * a + 36524 * b + 1461 * c + 365 * e + yd - 146097 * a
      = 36524 * b + 1461 * c + 365 * e + yd := by omega
  have h3 : (36524 * b + 1461 * c + 365 * e + yd) / 36524 = b := by omega
  have h4 : b - b / 4 = b := by omega
  have h5 : 36524 * b + 1461 * c + 365 * e + yd - 36524 * b
      = 1461 * c + 365 * e + yd := by omega
  have h6 : (1461 * c + 365 * e + yd) / 1461 = c := by omega
  have h7 : 1461 * c + 365 * e + yd - 1461 * c = 365 * e + yd := by omega
  have h8 : (365 * e + yd) / 365 = e := by omega
  have h9 : e - e / 4 = e := by omega
  have h10 : 365 * e + yd - 365 * e = yd := by omega
  simp only [absYearYday]
  rw [h1, h2, h3, h4, h5, h6, h7, h8, h9, h10]

theorem absYearYday_leaf2a (a b c e yd : Nat) (hb : b ≤ 3) (hc : c ≤ 23) (he : e = 3)
    (hyd : yd = 365) :
    absYearYday (146097 * a + 36524 * b + 1461 * c + 365 * e + yd)
      = (400 * a + 100 * b + 4 * c + e + 1, yd) := by
  have h1 : (146097 * a + 36524 * b + 1461 * c + 365 * e + yd) / 146097 = a := by omega
  have h2 : 146097 * a + 36524 * b + 1461 * c + 365 * e + yd - 146097 * a
      = 36524 * b + 1461 * c + 365 * e + yd := by omega
  have h3 : (36524 * b + 1461 * c + 365 * e + yd) / 36524 = b := by omega
  have h4 : b - b / 4 = b := by omega
  have h5 : 36524 * b + 1461 * c + 365 * e + yd - 36524 * b
      = 1461 * c + 365 * e + yd := by omega
  have h6 : (1461 * c + 365 * e + yd) / 1461 = c := by omega
  have h7 : 1461 * c + 365 * e + yd - 1461 * c = 365 * e + yd := by omega
  have h8 : (365 * e + yd) / 365 = e + 1 := by omega
  have h9 : e + 1 - (e + 1) / 4 = e := by omega
  have h10 : 365 * e + yd - 365 * e = yd := by omega
  simp only [absYearYday]
  rw [h1, h2, h3, h4, h5, h6, h7, h8, h9, h10]

theorem absYearYday_leaf2b (a b c e yd : Nat) (hb : b = 3) (hc : c = 24) (he : e = 3)
    (hyd : yd = 365) :
    absYearYday (146097 * a + 36524 * b + 1461 * c + 365 * e + yd)
      = (400 * a + 100 * b + 4 * c + e + 1, yd) := by
  subst hb hc he hyd
  simp only [absYearYday, Prod.mk.injEq]
  constructor <;> omega

theorem absYearYday_add (y yd : Nat) (hy : 1 ≤ y)
    (hyd : yd < 365 + (if isLeap y then 1 else 0)) :
    absYearYday (daysBeforeYear y + yd) = (y, yd) := by
  obtain ⟨a, b, c, e, hrep, hb, hc, he⟩ :
      ∃ a b c e, y = 400 * a + 100 * b + 4 * c + e + 1 ∧ b ≤ 3 ∧ c ≤ 24 ∧ e ≤ 3 :=
    ⟨(y - 1) / 400, (y - 1) % 400 / 100, (y - 1) % 400 % 100 / 4, (y - 1) % 400 % 100 % 4,
      by omega, by omega, by omega, by omega⟩
  subst hrep
  have hleap : isLeap (400 * a + 100 * b + 4 * c + e + 1) = true
      ↔ (e = 3 ∧ (c ≠ 24 ∨ b = 3)) := by
    rw [isLeap_iff]; omega
  have h1 : daysBeforeYear (400 * a + 100 * b + 4 * c + e + 1)
      = 146097 * a + 36524 * b + 1461 * c + 365 * e := by
    simp only [daysBeforeYear]; omega
  rw [h1]
  rcases Nat.lt_or_ge yd 365 with h365 | h365
  · have : 146097 * a + 36524 * b + 1461 * c + 365 * e + yd
        = 146097 * a + 36524 * b + 1461 * c + 365 * e + yd := rfl
    exact absYearYday_leaf1 a b c e yd hb hc he (by omega)
  · -- yd = 365 forces a leap year
    have hyd365 : yd = 365 := by
      by_cases h : isLeap (400 * a + 100 * b + 4 * c + e + 1) = true
      · rw [if_pos h] at hyd; omega
      · rw [if_neg h] at hyd; omega
    have hlp : e = 3 ∧ (c ≠ 24 ∨ b = 3) := by
      apply hleap.mp
      by_cases h : isLeap (400 * a + 100 * b + 4 * c + e + 1) = true
      · exact h
      · rw [if_neg h] at hyd; omega
    rcases hlp with ⟨he3, hcb⟩
    rcases eq_or_ne c 24 with hc24 | hc24
    · have hb3 : b = 3 := hcb.resolve_left (not_not_intro hc24)
      exact absYearYday_leaf2b a b c e yd hb3 hc24 he3 hyd365
    · exact absYearYday_leaf2a a b c e yd hb (by omega) he3 hyd365


theorem goDate_eq (y m d : Nat) (hm1 : 1 ≤ m) (hm2 : m ≤ 12) (hd : 1 ≤ d) :
    goDate y m d = daysBeforeYear y +
      (daysBefore (m - 1) + (if isLeap y && 3 ≤ m then 1 else 0) + d - 1) := by
  have h1 : (m - 1) / 12 = 0 := by omega
  have h2 : (m - 1) % 12 + 1 = m := by omega
  simp only [goDate, normM, h1, h2, Nat.add_zero]
  omega

theorem estStage (y m d day : Nat) (hm1 : 1 ≤ m) (hm2 : m ≤ 12)
    (hday : day = daysBefore (m - 1) + d - 1) (hd1 : 1 ≤ d)
    (hd2 : d ≤ daysBefore m - daysBefore (m - 1)) :
    (if daysBefore (day / 31 + 1) ≤ day then
      (y, day / 31 + 2, day - daysBefore (day / 31 + 1) + 1)
    else
      (y, day / 31 + 1, day - daysBefore (day / 31) + 1)) = (y, m, d) := by
  obtain ⟨E, hE⟩ : ∃ E, day / 31 = E := ⟨_, rfl⟩
  rw [hE]
  have hEb : E ≤ 11 := by
    interval_cases m <;>
      simp only [daysBefore, Nat.reduceSub, Nat.reduceAdd] at hday hd2 <;> omega
  interval_cases m <;>
    simp only [daysBefore, Nat.reduceSub, Nat.reduceAdd] at hday hd2 <;>
    interval_cases E <;>
    simp only [daysBefore, Nat.reduceAdd, Nat.reduceSub] <;>
    split_ifs <;> simp only [Prod.mk.injEq, true_and] <;> omega

theorem absDate_goDate (y m d : Nat) (hy : 1 ≤ y) (hm1 : 1 ≤ m) (hm2 : m ≤ 12)
    (hd1 : 1 ≤ d) (hd2 : d ≤ daysIn y m) :
    absDate (goDate y m d) = (y, m, d) := by
  rw [goDate_eq y m d hm1 hm2 hd1]
  rcases hL : isLeap y with _ | _
  · simp only [daysIn, hL, Bool.and_false, Bool.false_eq_true, if_false] at hd2
    simp only [Bool.false_and, Bool.false_eq_true, if_false, Nat.add_zero] at hd2 ⊢
    have hDB : daysBefore (m - 1) + d ≤ daysBefore m ∧ daysBefore m ≤ 365 := by
      interval_cases m <;>
        simp only [daysBefore, Nat.reduceSub, Nat.reduceAdd] at hd2 ⊢ <;>
        constructor <;> omega
    have hbound : daysBefore (m - 1) + d - 1
        < 365 + (if isLeap y then 1 else 0) := by
      rcases hDB with ⟨h1, h2⟩
      split <;> omega
    have habs := absYearYday_add y (daysBefore (m - 1) + d - 1) hy hbound
    simp only [absDate]
    rw [habs]
    dsimp only
    rw [hL]
    simp only [Bool.false_and, Bool.false_eq_true, if_false]
    exact estStage y m d _ hm1 hm2 rfl hd1 hd2
  · simp only [daysIn, hL, Bool.and_true] at hd2
    simp only [Bool.true_and] at hd2 ⊢
    simp only [decide_eq_true_eq] at hd2 ⊢
    have hDB1 : daysBefore (m - 1) + d ≤ daysBefore m + (if 2 ≤ m then 1 else 0) := by
      interval_cases m <;>
        simp only [daysBefore, Nat.reduceSub, Nat.reduceAdd, Nat.reduceEqDiff,
          Nat.reduceLeDiff, reduceIte] at hd2 ⊢ <;> omega
    have hDB2 : daysBefore m ≤ 365 := by
      interval_cases m <;> simp only [daysBefore, Nat.reduceLeDiff]
    have hDB3 : 3 ≤ m → 59 ≤ daysBefore (m - 1) := by
      intro h3
      interval_cases m <;>
        simp only [daysBefore, Nat.reduceSub, Nat.reduceAdd, Nat.reduceLeDiff] <;> omega
    have hDB4 : daysBefore (m - 1) ≤ daysBefore m := by
      interval_cases m <;> simp only [daysBefore, Nat.reduceLeDiff]
    have hbound : daysBefore (m - 1) + (if 3 ≤ m then 1 else 0) + d - 1
        < 365 + (if isLeap y then 1 else 0) := by
      simp only [hL, eq_self_iff_true, if_true]
      rcases eq_or_ne m 2 with hm2v | hm2v
      · subst hm2v
        rw [if_pos rfl] at hd2
        simp only [daysBefore, Nat.reduceSub, Nat.reduceAdd, Nat.reduceLeDiff,
          reduceIte]
        omega
      · rw [if_neg hm2v] at hd2
        split_ifs <;> omega
    have habs := absYearYday_add y
      (daysBefore (m - 1) + (if 3 ≤ m then 1 else 0) + d - 1) hy hbound
    simp only [absDate]
    rw [habs]
    dsimp only
    rw [hL]
    simp only [Bool.true_and, decide_eq_true_eq, beq_iff_eq]
    by_cases h59 : daysBefore (m - 1) + (if 3 ≤ m then 1 else 0) + d - 1 = 59
    · -- the Feb 29 special case: only m = 2, d = 29 can reach yday 59
      rw [if_pos h59]
      have hm2d : m = 2 ∧ d = 29 := by
        by_cases h3 : 3 ≤ m
        · rw [if_pos h3] at h59
          have h59b := hDB3 h3
          rw [if_neg (by omega : ¬ m = 2)] at hd2
          omega
        · rw [if_neg h3] at h59
          interval_cases m <;>
            simp only [daysBefore, Nat.reduceSub, Nat.reduceAdd, Nat.reduceEqDiff,
              Nat.reduceLeDiff, reduceIte] at h59 hd2 <;> omega
      obtain ⟨hmv, hdv⟩ := hm2d
      subst hmv hdv
      rfl
    · rw [if_neg h59]
      by_cases h60 : 59 < daysBefore (m - 1) + (if 3 ≤ m then 1 else 0) + d - 1
      · rw [if_pos h60]
        have hm3 : 3 ≤ m := by
          by_contra h3
          rw [if_neg h3] at h60
          interval_cases m <;>
            simp only [daysBefore, Nat.reduceSub, Nat.reduceAdd, Nat.reduceEqDiff,
              Nat.reduceLeDiff, reduceIte] at h60 hd2 <;> omega
        rw [if_neg (by omega : ¬ m = 2)] at hd2
        rw [if_pos hm3] at h60 ⊢
        exact estStage y m d _ hm1 hm2 (by have := hDB3 hm3; omega) hd1 hd2
      · rw [if_neg h60]
        have hm3 : ¬ 3 ≤ m := by
          intro h3
          rw [if_pos h3] at h60
          have := hDB3 h3
          omega
        rw [if_neg hm3] at h59 ⊢
        have hd2n : d ≤ daysBefore m - daysBefore (m - 1) := by
          rcases eq_or_ne m 2 with hm2v | hm2v
          · subst hm2v
            rw [if_pos rfl] at hd2
            simp only [daysBefore, Nat.reduceSub, Nat.reduceAdd] at h59 ⊢
            omega
          · rw [if_neg hm2v] at hd2
            exact hd2
        exact estStage y m d _ hm1 hm2 (by omega) hd1 hd2n

/-!
## The `monthWeeks` decomposition

Closed form of the week loop, and the characterization of which absolute
days belong to month `m` of year `y`.
-/

theorem week_eq_range' (cur : Nat) :
    (List.range 7).map (fun i => cur + i) = List.range' cur 7 := by
  simp [List.range'_eq_map_range]

theorem weeksLoop_eq (fuel last cur : Nat) (h7 : cur % 7 = 0)
    (hf : (last - cur) / 7 + 1 ≤ fuel) :
    weeksLoop fuel last cur
      = (List.range ((last - cur) / 7 + 1)).map (fun j => List.range' (cur + 7 * j) 7) := by
  induction fuel generalizing cur with
  | zero => omega
  | succ n ih =>
    simp only [weeksLoop]
    have hw : (weekday (cur + 7) == 1) = true := by
      simp only [weekday, beq_iff_eq]
      omega
    by_cases hstop : last < cur + 7
    · have hq : (last - cur) / 7 = 0 := by omega
      rw [hq]
      simp only [decide_eq_true hstop, hw, Bool.and_self, if_true]
      rw [show List.range (0 + 1) = [0] from rfl]
      rw [List.map_cons, List.map_nil, week_eq_range']
      rw [show cur + 7 * 0 = cur from by omega]
    · have hcond : (decide (last < cur + 7) && (weekday (cur + 7) == 1)) = false := by
        simp [hstop]
      rw [hcond]
      simp only [Bool.false_eq_true, if_false]
      rw [ih (cur + 7) (by omega) (by omega), week_eq_range']
      have hk : (last - cur) / 7 + 1 = ((last - (cur + 7)) / 7 + 1) + 1 := by omega
      conv_rhs => rw [hk, List.range_succ_eq_map, List.map_cons, List.map_map]
      rw [show cur + 7 * 0 = cur from by omega]
      refine congrArg₂ List.cons rfl ?_
      apply List.map_congr_left
      intro j _
      simp only [Function.comp_apply]
      congr 1
      omega

theorem flatten_weeks (s n : Nat) :
    ((List.range n).map (fun j => List.range' (s + 7 * j) 7)).flatten
      = List.range' s (7 * n) := by
  induction n with
  | zero => simp
  | succ k ih =>
    rw [List.range_succ, List.map_append, List.flatten_append]
    simp only [List.map_cons, List.map_nil, List.flatten_cons, List.flatten_nil,
      List.append_nil]
    rw [ih]
    rw [show 7 * (k + 1) = 7 + 7 * k from by omega]
    exact List.range'_append_1 s (7 * k) 7

theorem daysBeforeYear_rep (a b c e : Nat) (hb : b ≤ 3) (hc : c ≤ 24) (he : e ≤ 3) :
    daysBeforeYear (400 * a + 100 * b + 4 * c + e + 1)
      = 146097 * a + 36524 * b + 1461 * c + 365 * e := by
  simp only [daysBeforeYear]
  omega

theorem daysBeforeYear_succ (y : Nat) (hy : 1 ≤ y) :
    daysBeforeYear (y + 1) = daysBeforeYear y + 365 + (if isLeap y then 1 else 0) := by
  obtain ⟨a, b, c, e, hrep, hb, hc, he⟩ :
      ∃ a b c e, y = 400 * a + 100 * b + 4 * c + e + 1 ∧ b ≤ 3 ∧ c ≤ 24 ∧ e ≤ 3 :=
    ⟨(y - 1) / 400, (y - 1) % 400 / 100, (y - 1) % 400 % 100 / 4, (y - 1) % 400 % 100 % 4,
      by omega, by omega, by omega, by omega⟩
  subst hrep
  have hleap : isLeap (400 * a + 100 * b + 4 * c + e + 1) = true
      ↔ (e = 3 ∧ (c ≠ 24 ∨ b = 3)) := by
    rw [isLeap_iff]; omega
  have h1 := daysBeforeYear_rep a b c e hb hc he
  rcases Nat.lt_or_ge e 3 with he3 | he3
  · have h2 : daysBeforeYear (400 * a + 100 * b + 4 * c + e + 1 + 1)
        = 146097 * a + 36524 * b + 1461 * c + 365 * (e + 1) := by
      have h := daysBeforeYear_rep a b c (e + 1) hb hc (by omega)
      rw [show 400 * a + 100 * b + 4 * c + (e + 1) + 1
          = 400 * a + 100 * b + 4 * c + e + 1 + 1 from by omega] at h
      exact h
    have hnl : isLeap (400 * a + 100 * b + 4 * c + e + 1) = false := by
      cases h : isLeap (400 * a + 100 * b + 4 * c + e + 1)
      · rfl
      · have := (hleap.mp h).1; omega
    rw [h2, h1, hnl]
    simp only [Bool.false_eq_true, if_false]
    omega
  · have he3' : e = 3 := by omega
    subst he3'
    rcases Nat.lt_or_ge c 24 with hc24 | hc24
    · have h2 : daysBeforeYear (400 * a + 100 * b + 4 * c + 3 + 1 + 1)
          = 146097 * a + 36524 * b + 1461 * (c + 1) + 365 * 0 := by
        have h := daysBeforeYear_rep a b (c + 1) 0 hb (by omega) (by omega)
        rw [show 400 * a + 100 * b + 4 * (c + 1) + 0 + 1
            = 400 * a + 100 * b + 4 * c + 3 + 1 + 1 from by omega] at h
        exact h
      have hl : isLeap (400 * a + 100 * b + 4 * c + 3 + 1) = true :=
        hleap.mpr ⟨rfl, Or.inl (by omega)⟩
      rw [h2, h1, hl]
      simp only [eq_self_iff_true, if_true]
      omega
    · have hc24' : c = 24 := by omega
      subst hc24'
      rcases Nat.lt_or_ge b 3 with hb3 | hb3
      · have h2 : daysBeforeYear (400 * a + 100 * b + 4 * 24 + 3 + 1 + 1)
            = 146097 * a + 36524 * (b + 1) + 1461 * 0 + 365 * 0 := by
          have h := daysBeforeYear_rep a (b + 1) 0 0 (by omega) (by omega) (by omega)
          rw [show 400 * a + 100 * (b + 1) + 4 * 0 + 0 + 1
              = 400 * a + 100 * b + 4 * 24 + 3 + 1 + 1 from by omega] at h
          exact h
        have hnl : isLeap (400 * a + 100 * b + 4 * 24 + 3 + 1) = false := by
          cases h : isLeap (400 * a + 100 * b + 4 * 24 + 3 + 1)
          · rfl
          · rcases (hleap.mp h).2 with h' | h'
            · exact absurd rfl h'
            · omega
        rw [h2, h1, hnl]
        simp only [Bool.false_eq_true, if_false]
        omega
      · have hb3' : b = 3 := by omega
        subst hb3'
        have h2 : daysBeforeYear (400 * a + 100 * 3 + 4 * 24 + 3 + 1 + 1)
            = 146097 * (a + 1) + 36524 * 0 + 1461 * 0 + 365 * 0 := by
          have h := daysBeforeYear_rep (a + 1) 0 0 0 (by omega) (by omega) (by omega)
          rw [show 400 * (a + 1) + 100 * 0 + 4 * 0 + 0 + 1
              = 400 * a + 100 * 3 + 4 * 24 + 3 + 1 + 1 from by omega] at h
          exact h
        have hl : isLeap (400 * a + 100 * 3 + 4 * 24 + 3 + 1) = true :=
          hleap.mpr ⟨rfl, Or.inr rfl⟩
        rw [h2, h1, hl]
        simp only [eq_self_iff_true, if_true]
        omega

theorem daysIn_bounds (y m : Nat) (hm1 : 1 ≤ m) (hm2 : m ≤ 12) :
    28 ≤ daysIn y m ∧ daysIn y m ≤ 31 := by
  unfold daysIn
  split
  · omega
  · interval_cases m <;>
      simp only [daysBefore, Nat.reduceSub, Nat.reduceAdd] <;> omega

theorem goDate_linear (y m d : Nat) (hm1 : 1 ≤ m) (hm2 : m ≤ 12) (hd : 1 ≤ d) :
    goDate y m d = firstOfMonth y m + (d - 1) := by
  unfold firstOfMonth
  rw [goDate_eq y m d hm1 hm2 hd, goDate_eq y m 1 hm1 hm2 (Nat.le_refl 1)]
  omega

theorem goDate_zero_eq (y m : Nat) (hm : 2 ≤ m) (hm2 : m ≤ 12) :
    goDate y m 0 + 1 = goDate y m 1 := by
  have h1 : (m - 1) / 12 = 0 := by omega
  have h2 : (m - 1) % 12 + 1 = m := by omega
  have h3 : 31 ≤ daysBefore (m - 1) := by
    interval_cases m <;> simp only [daysBefore, Nat.reduceSub, Nat.reduceLeDiff]
  simp only [goDate, normM, h1, h2, Nat.add_zero]
  omega

theorem lastOfMonth_eq (y m : Nat) (hy : 1 ≤ y) (hm1 : 1 ≤ m) (hm2 : m ≤ 12) :
    lastOfMonth y m = goDate y m (daysIn y m) := by
  have hdi := daysIn_bounds y m hm1 hm2
  rw [goDate_eq y m (daysIn y m) hm1 hm2 (by omega)]
  rcases eq_or_ne m 12 with h12 | h12
  · subst h12
    have hL : lastOfMonth y 12 = daysBeforeYear (y + 1) - 1 := by
      simp only [lastOfMonth, goDate, normM, Nat.reduceDiv, Nat.reduceMod,
        Nat.reduceSub, Nat.reduceAdd, Nat.reduceLeDiff, daysBefore,
        decide_False, Bool.and_false, Bool.false_eq_true, if_false]
      omega
    rw [hL, daysBeforeYear_succ y hy]
    have hd12 : daysIn y 12 = 31 := by
      simp only [daysIn, Nat.reduceEqDiff, decide_False, Bool.false_and,
        Bool.false_eq_true, if_false, daysBefore, Nat.reduceSub]
    rw [hd12] at *
    simp only [daysBefore, Nat.reduceSub]
    rcases h : isLeap y with _ | _ <;>
      simp only [Bool.true_and, Bool.false_and, Bool.false_eq_true, if_false,
        decide_eq_true_eq, Nat.reduceLeDiff, if_true, reduceIte] <;> omega
  · have hm11 : m ≤ 11 := by omega
    have ha : m / 12 = 0 := by omega
    have hb : m % 12 = m := by omega
    have hLfm : lastOfMonth y m = daysBeforeYear y + daysBefore m
        + (if (isLeap y && decide (3 ≤ m + 1)) = true then 1 else 0) - 1 := by
      simp only [lastOfMonth, goDate, normM, Nat.add_sub_cancel, ha, hb,
        Nat.add_zero]
    rw [hLfm]
    rcases h : isLeap y with _ | _ <;>
      interval_cases m <;>
      simp only [daysIn, h, Bool.and_false, Bool.and_true, Bool.false_and,
        Bool.true_and, Bool.false_eq_true, if_false, decide_eq_true_eq,
        Nat.reduceEqDiff, Nat.reduceLeDiff, reduceIte, daysBefore,
        Nat.reduceSub, Nat.reduceAdd] <;> omega

theorem first_le_last (y m : Nat) (hy : 1 ≤ y) (hm1 : 1 ≤ m) (hm2 : m ≤ 12) :
    firstOfMonth y m ≤ lastOfMonth y m := by
  have hdi := daysIn_bounds y m hm1 hm2
  rw [lastOfMonth_eq y m hy hm1 hm2, goDate_linear y m _ hm1 hm2 (by omega)]
  omega

theorem last_first_diff (y m : Nat) (hy : 1 ≤ y) (hm1 : 1 ≤ m) (hm2 : m ≤ 12) :
    lastOfMonth y m = firstOfMonth y m + (daysIn y m - 1) := by
  rw [lastOfMonth_eq y m hy hm1 hm2,
    goDate_linear y m _ hm1 hm2 (by have := daysIn_bounds y m hm1 hm2; omega)]

theorem mwOffset_eq (y m : Nat) : mwOffset y m = firstOfMonth y m % 7 := by
  simp only [mwOffset, weekday]
  omega

theorem mwStart_mod (y m : Nat) : mwStart y m % 7 = 0 := by
  rw [mwStart, mwOffset_eq]
  omega

theorem mwStart_le (y m : Nat) : mwStart y m ≤ firstOfMonth y m := by
  rw [mwStart]
  omega

theorem mwStart_ge (y m : Nat) : firstOfMonth y m ≤ mwStart y m + 6 := by
  rw [mwStart, mwOffset_eq]
  omega

theorem monthWeeks_eq (y m : Nat) :
    monthWeeks y m
      = (List.range (mwCount y m)).map (fun j => List.range' (mwStart y m + 7 * j) 7) :=
  weeksLoop_eq (mwCount y m) (lastOfMonth y m) (mwStart y m) (mwStart_mod y m)
    (Nat.le_refl _)

theorem mwCount_bound (y m : Nat) (hy : 1 ≤ y) (hm1 : 1 ≤ m) (hm2 : m ≤ 12) :
    lastOfMonth y m < mwStart y m + 7 * mwCount y m ∧
      mwStart y m + 7 * mwCount y m ≤ lastOfMonth y m + 7 := by
  have h1 := mwStart_le y m
  have h2 := first_le_last y m hy hm1 hm2
  rw [mwCount]
  omega

theorem absDate_in_month (y m x : Nat) (hy : 1 ≤ y) (hm1 : 1 ≤ m) (hm2 : m ≤ 12)
    (h1 : firstOfMonth y m ≤ x) (h2 : x ≤ lastOfMonth y m) :
    absDate x = (y, m, x - firstOfMonth y m + 1) := by
  have hdi := daysIn_bounds y m hm1 hm2
  have hlast := last_first_diff y m hy hm1 hm2
  have hxd : goDate y m (x - firstOfMonth y m + 1) = x := by
    rw [goDate_linear y m _ hm1 hm2 (by omega)]
    omega
  have h := absDate_goDate y m (x - firstOfMonth y m + 1) hy hm1 hm2 (by omega) (by omega)
  rw [hxd] at h
  exact h

theorem next_first (y m : Nat) (hm1 : 1 ≤ m) (hm11 : m ≤ 11) :
    firstOfMonth y (m + 1) = lastOfMonth y m + 1 := by
  unfold firstOfMonth lastOfMonth
  rw [← goDate_zero_eq y (m + 1) (by omega) (by omega)]

theorem next_year_first (y : Nat) (hy : 1 ≤ y) :
    firstOfMonth (y + 1) 1 = lastOfMonth y 12 + 1 := by
  have hsucc := daysBeforeYear_succ y hy
  simp only [firstOfMonth, lastOfMonth, goDate, normM, Nat.reduceDiv,
    Nat.reduceMod, Nat.reduceSub, Nat.reduceAdd, Nat.reduceLeDiff, daysBefore,
    Nat.add_zero, decide_False, Bool.and_false, Bool.false_eq_true, if_false]
  omega

theorem first_jan_eq (y : Nat) (hy : 2 ≤ y) :
    firstOfMonth y 1 = lastOfMonth (y - 1) 12 + 1 := by
  have h := next_year_first (y - 1) (by omega)
  rw [Nat.sub_add_cancel (by omega : 1 ≤ y)] at h
  exact h

theorem first_eq_last_prev (y m : Nat) (hm : 2 ≤ m) (hm2 : m ≤ 12) :
    firstOfMonth y m = lastOfMonth y (m - 1) + 1 := by
  have h := next_first y (m - 1) (by omega) (by omega)
  rw [Nat.sub_add_cancel (by omega : 1 ≤ m)] at h
  exact h

theorem not_month_before (y m x : Nat) (hy : 1 ≤ y) (hm1 : 1 ≤ m) (hm2 : m ≤ 12)
    (hx1 : mwStart y m ≤ x) (hx2 : x < firstOfMonth y m) :
    monthOf x ≠ m := by
  have hoff := mwStart_ge y m
  rcases eq_or_ne m 1 with hm | hm
  · subst hm
    rcases Nat.lt_or_ge y 2 with hy2 | hy2
    · have hy1 : y = 1 := by omega
      subst hy1
      have : firstOfMonth 1 1 = 0 := by decide
      omega
    · have hj := first_jan_eq y hy2
      have hpd := daysIn_bounds (y - 1) 12 (by omega) (by omega)
      have hpl := last_first_diff (y - 1) 12 (by omega) (by omega) (by omega)
      have habs := absDate_in_month (y - 1) 12 x (by omega) (by omega) (by omega)
        (by omega) (by omega)
      intro hmx
      rw [monthOf, habs] at hmx
      simp only at hmx
      omega
  · have hj := first_eq_last_prev y m (by omega) hm2
    have hpd := daysIn_bounds y (m - 1) (by omega) (by omega)
    have hpl := last_first_diff y (m - 1) hy (by omega) (by omega)
    have habs := absDate_in_month y (m - 1) x hy (by omega) (by omega)
      (by omega) (by omega)
    intro hmx
    rw [monthOf, habs] at hmx
    simp only at hmx
    omega

theorem not_month_after (y m x : Nat) (hy : 1 ≤ y) (hm1 : 1 ≤ m) (hm2 : m ≤ 12)
    (hx1 : lastOfMonth y m < x) (hx2 : x < mwStart y m + 7 * mwCount y m) :
    monthOf x ≠ m := by
  have hub := (mwCount_bound y m hy hm1 hm2).2
  rcases eq_or_ne m 12 with hm | hm
  · subst hm
    have hj := next_year_first y hy
    have hnd := daysIn_bounds (y + 1) 1 (by omega) (by omega)
    have hnl := last_first_diff (y + 1) 1 (by omega) (by omega) (by omega)
    have habs := absDate_in_month (y + 1) 1 x (by omega) (by omega) (by omega)
      (by omega) (by omega)
    intro hmx
    rw [monthOf, habs] at hmx
    simp only at hmx
    omega
  · have hj := next_first y m hm1 (by omega)
    have hnd := daysIn_bounds y (m + 1) (by omega) (by omega)
    have hnl := last_first_diff y (m + 1) hy (by omega) (by omega)
    have habs := absDate_in_month y (m + 1) x hy (by omega) (by omega)
      (by omega) (by omega)
    intro hmx
    rw [monthOf, habs] at hmx
    simp only at hmx
    omega

theorem monthWeeks_dates (y m x : Nat) (hy : 1 ≤ y) (hm1 : 1 ≤ m) (hm2 : m ≤ 12) :
    (x ∈ (monthWeeks y m).flatten ∧ monthOf x = m)
      ↔ (∃ d, 1 ≤ d ∧ d ≤ daysIn y m ∧ x = goDate y m d) := by
  rw [monthWeeks_eq, flatten_weeks, List.mem_range'_1]
  have hdi := daysIn_bounds y m hm1 hm2
  have hlast := last_first_diff y m hy hm1 hm2
  have hsle := mwStart_le y m
  have hcb := mwCount_bound y m hy hm1 hm2
  constructor
  · rintro ⟨⟨hx1, hx2⟩, hym⟩
    by_cases hlt : x < firstOfMonth y m
    · exact absurd hym (not_month_before y m x hy hm1 hm2 hx1 hlt)
    by_cases hgt : lastOfMonth y m < x
    · exact absurd hym (not_month_after y m x hy hm1 hm2 hgt hx2)
    refine ⟨x - firstOfMonth y m + 1, by omega, by omega, ?_⟩
    rw [goDate_linear y m _ hm1 hm2 (by omega)]
    omega
  · rintro ⟨d, hd1, hd2, rfl⟩
    have hlin := goDate_linear y m d hm1 hm2 hd1
    have habs := absDate_goDate y m d hy hm1 hm2 hd1 hd2
    refine ⟨⟨by omega, by omega⟩, ?_⟩
    rw [monthOf, habs]

theorem monthWeeks_dates_year (y m x : Nat) (hy : 1 ≤ y) (hm1 : 1 ≤ m) (hm2 : m ≤ 12) :
    (x ∈ (monthWeeks y m).flatten ∧ yearOf x = y ∧ monthOf x = m)
      ↔ (∃ d, 1 ≤ d ∧ d ≤ daysIn y m ∧ x = goDate y m d) := by
  constructor
  · rintro ⟨hmem, _, hmx⟩
    exact (monthWeeks_dates y m x hy hm1 hm2).mp ⟨hmem, hmx⟩
  · intro h
    obtain ⟨hmem, hmx⟩ := (monthWeeks_dates y m x hy hm1 hm2).mpr h
    obtain ⟨d, hd1, hd2, rfl⟩ := h
    have habs := absDate_goDate y m d hy hm1 hm2 hd1 hd2
    refine ⟨hmem, ?_, hmx⟩
    rw [yearOf, habs]

theorem monthWeeks_flatten_nodup (y m : Nat) : (monthWeeks y m).flatten.Nodup := by
  rw [monthWeeks_eq, flatten_weeks]
  exact List.nodup_range' _ _

/-!
## Allocation-pass invariants

Every handle the allocator issues is nonzero; the `Days` map gets exactly
one entry per in-month date; week and day anchors are allocated regardless
of the feature flags.
-/

theorem getD_set_self (l : List Nat) (i v : Nat) (h : i < l.length) :
    (l.set i v).getD i 0 = v := by
  simp [List.getD_eq_getElem?_getD, List.getElem?_set_self h]

theorem getD_set_ne (l : List Nat) (i j v : Nat) (h : i ≠ j) :
    (l.set i v).getD j 0 = l.getD j 0 := by
  simp [List.getD_eq_getElem?_getD, List.getElem?_set_ne h]

theorem find?_key_eq_none {α : Type} (l : List (Nat × α)) (x : Nat) :
    l.find? (fun p => p.1 == x) = none ↔ x ∉ l.map Prod.fst := by
  rw [List.find?_eq_none]
  constructor
  · intro h hx
    obtain ⟨p, hp, hpx⟩ := List.mem_map.mp hx
    have hb := h p hp
    simp only [beq_iff_eq] at hb
    exact hb hpx
  · intro h p hp
    intro hpk
    exact h (List.mem_map.mpr ⟨p, hp, by simpa using hpk⟩)

theorem mapGetN_ne_zero (l : List (Nat × Nat)) (x : Nat) (hv : ∀ p ∈ l, 1 ≤ p.2) :
    (mapGetN l x ≠ 0) ↔ x ∈ l.map Prod.fst := by
  unfold mapGetN
  rcases hf : l.find? (fun p => p.1 == x) with _ | p <;> rw [hf]
  · rw [find?_key_eq_none] at hf
    simp only [ne_eq, not_true_eq_false, false_iff]
    exact hf
  · have hmem := List.mem_of_find?_eq_some hf
    have hkey := List.find?_some hf
    simp only [beq_iff_eq] at hkey
    have hp2 := hv p hmem
    simp only [ne_eq]
    constructor
    · intro _
      exact List.mem_map.mpr ⟨p, hmem, hkey⟩
    · intro _
      omega

theorem mapGetN_append_left (l1 l2 : List (Nat × Nat)) (x : Nat)
    (h : x ∈ l1.map Prod.fst) :
    mapGetN (l1 ++ l2) x = mapGetN l1 x := by
  unfold mapGetN
  rw [List.find?_append]
  rcases hf : l1.find? (fun p => p.1 == x) with _ | p
  · exact absurd ((find?_key_eq_none l1 x).mp hf) (by simpa using h)
  · rw [hf, Option.or_some]

theorem mapGetN_append_right (l1 l2 : List (Nat × Nat)) (x : Nat)
    (h : x ∉ l1.map Prod.fst) :
    mapGetN (l1 ++ l2) x = mapGetN l2 x := by
  unfold mapGetN
  rw [List.find?_append, (find?_key_eq_none l1 x).mpr h, Option.none_or]

theorem weeksGet_append_left (l1 l2 : List (Nat × List Nat)) (k : Nat)
    (h : k ∈ l1.map Prod.fst) :
    weeksGet (l1 ++ l2) k = weeksGet l1 k := by
  unfold weeksGet
  rw [List.find?_append]
  rcases hf : l1.find? (fun p => p.1 == k) with _ | p
  · exact absurd ((find?_key_eq_none l1 k).mp hf) (by simpa using h)
  · rw [hf, Option.or_some]

theorem weeksGet_append_right (l1 l2 : List (Nat × List Nat)) (k : Nat)
    (h : k ∉ l1.map Prod.fst) :
    weeksGet (l1 ++ l2) k = weeksGet l2 k := by
  unfold weeksGet
  rw [List.find?_append, (find?_key_eq_none l1 k).mpr h, Option.none_or]

theorem weeksGet_single (k : Nat) (v : List Nat) : weeksGet [(k, v)] k = v := by
  simp [weeksGet]

theorem allocWeeksAux_spec (m i n : Nat) (s : AllocSt) :
    (allocWeeksAux m i n s).1.length = n ∧
    (allocWeeksAux m i n s).2.next = s.next + n ∧
    (1 ≤ s.next → ∀ h ∈ (allocWeeksAux m i n s).1, 1 ≤ h) := by
  induction n generalizing i s with
  | zero => simp [allocWeeksAux]
  | succ k ih =>
    obtain ⟨ih1, ih2, ih3⟩ :=
      ih (i + 1) { next := s.next + 1, events := s.events ++ [(.week m i, s.next)] }
    simp only [allocWeeksAux, addLink]
    rcases hr : allocWeeksAux m (i + 1) k
        { next := s.next + 1, events := s.events ++ [(Target.week m i, s.next)] }
      with ⟨rest, s2⟩
    rw [hr] at ih1 ih2 ih3
    simp only [List.length_cons] at ih1 ih2 ih3 ⊢
    refine ⟨by omega, by omega, ?_⟩
    intro hs h hh
    rcases List.mem_cons.mp hh with rfl | hmem
    · exact hs
    · exact ih3 (by omega) h hmem

theorem mapGetN_snoc (l : List (Nat × Nat)) (d h x : Nat) (hd : d ∉ l.map Prod.fst)
    (hv : ∀ p ∈ l, 1 ≤ p.2) :
    mapGetN (l ++ [(d, h)]) x = if x = d then h else mapGetN l x := by
  by_cases hx : x ∈ l.map Prod.fst
  · rw [mapGetN_append_left _ _ _ hx, if_neg]
    rintro rfl
    exact hd hx
  · rw [mapGetN_append_right _ _ _ hx]
    by_cases hxd : x = d
    · subst hxd
      simp [mapGetN, List.find?]
    · rw [if_neg hxd]
      have h0 : mapGetN l x = 0 := by
        by_contra hne
        exact hx ((mapGetN_ne_zero l x hv).mp hne)
      rw [h0]
      simp only [mapGetN, List.find?]
      rw [show (d == x) = false from by simpa using fun hh => hxd hh.symm]

theorem allocDaysAux_spec (m : Nat) (ds : List Nat) :
    ∀ (links : Links) (s : AllocSt), 1 ≤ s.next → (∀ p ∈ links.Days, 1 ≤ p.2) →
    (allocDaysAux m ds links s).1.Year = links.Year ∧
    (allocDaysAux m ds links s).1.Months = links.Months ∧
    (allocDaysAux m ds links s).1.Weeks = links.Weeks ∧
    (allocDaysAux m ds links s).1.Collections = links.Collections ∧
    (allocDaysAux m ds links s).1.Hubs = links.Hubs ∧
    1 ≤ (allocDaysAux m ds links s).2.next ∧
    (∀ p ∈ (allocDaysAux m ds links s).1.Days, 1 ≤ p.2) ∧
    ((links.Days.map Prod.fst).Nodup →
      ((allocDaysAux m ds links s).1.Days.map Prod.fst).Nodup) ∧
    (∀ x, mapGetN (allocDaysAux m ds links s).1.Days x ≠ 0 ↔
      (mapGetN links.Days x ≠ 0 ∨ (x ∈ ds ∧ monthOf x = m))) := by
  induction ds with
  | nil =>
    intro links s hnext hdv
    simp only [allocDaysAux]
    refine ⟨trivial, trivial, trivial, trivial, trivial, hnext, hdv, fun h => h, fun x => ?_⟩
    simp
  | cons d rest ih =>
    intro links s hnext hdv
    simp only [allocDaysAux, addLink]
    by_cases hc : monthOf d = m ∧ mapGetN links.Days d = 0
    · rw [if_pos hc]
      have hdnk : d ∉ links.Days.map Prod.fst := by
        intro hk
        have := (mapGetN_ne_zero links.Days d hdv).mpr hk
        omega
      have hdv' : ∀ p ∈ links.Days ++ [(d, s.next)], 1 ≤ p.2 := by
        intro p hp
        rcases List.mem_append.mp hp with hp | hp
        · exact hdv p hp
        · rcases List.mem_singleton.mp hp with rfl
          exact hnext
      obtain ⟨g1, g2, g3, g4, g5, g6, g7, g8, g9⟩ :=
        ih { links with Days := links.Days ++ [(d, s.next)] }
          { next := s.next + 1, events := s.events ++ [(Target.day d, s.next)] }
          (by show 1 ≤ s.next + 1; omega) hdv'
      refine ⟨g1, g2, g3, g4, g5, g6, g7, ?_, ?_⟩
      · intro hnd
        apply g8
        simp only [List.map_append, List.map_cons, List.map_nil]
        rw [List.nodup_append]
        exact ⟨hnd, List.nodup_singleton d, by simpa using hdnk⟩
      · intro x
        rw [g9 x, mapGetN_snoc links.Days d s.next x hdnk hdv]
        by_cases hxd : x = d
        · subst hxd
          rw [if_pos rfl]
          simp only [List.mem_cons]
          constructor
          · intro _
            exact Or.inr ⟨Or.inl trivial, hc.1⟩
          · intro _
            exact Or.inl (by omega)
        · rw [if_neg hxd]
          simp only [List.mem_cons]
          constructor
          · rintro (hA | ⟨hmem, hmo⟩)
            · exact Or.inl hA
            · exact Or.inr ⟨Or.inr hmem, hmo⟩
          · rintro (hA | ⟨hd' | hmem, hmo⟩)
            · exact Or.inl hA
            · exact absurd hd' hxd
            · exact Or.inr ⟨hmem, hmo⟩
    · rw [if_neg hc]
      obtain ⟨g1, g2, g3, g4, g5, g6, g7, g8, g9⟩ := ih links s hnext hdv
      push_neg at hc
      refine ⟨g1, g2, g3, g4, g5, g6, g7, g8, ?_⟩
      intro x
      rw [g9 x]
      simp only [List.mem_cons]
      constructor
      · rintro (hA | ⟨hmem, hmo⟩)
        · exact Or.inl hA
        · exact Or.inr ⟨Or.inr hmem, hmo⟩
      · rintro (hA | ⟨hd' | hmem, hmo⟩)
        · exact Or.inl hA
        · subst hd'
          exact Or.inl (hc hmo)
        · exact Or.inr ⟨hmem, hmo⟩

theorem allocMonthsAux_spec (year : Nat) (ms : List Nat) :
    ∀ (links : Links) (s : AllocSt), 1 ≤ s.next →
    (∀ p ∈ links.Days, 1 ≤ p.2) →
    (∀ m ∈ ms, m ∉ links.Weeks.map Prod.fst) →
    ms.Nodup →
    (∀ m ∈ ms, m - 1 < links.Months.length) →
    (allocMonthsAux year ms links s).1.Year = links.Year ∧
    (allocMonthsAux year ms links s).1.Collections = links.Collections ∧
    (allocMonthsAux year ms links s).1.Hubs = links.Hubs ∧
    (allocMonthsAux year ms links s).1.Months.length = links.Months.length ∧
    1 ≤ (allocMonthsAux year ms links s).2.next ∧
    (∀ p ∈ (allocMonthsAux year ms links s).1.Days, 1 ≤ p.2) ∧
    ((links.Days.map Prod.fst).Nodup →
      ((allocMonthsAux year ms links s).1.Days.map Prod.fst).Nodup) ∧
    (∀ x, mapGetN (allocMonthsAux year ms links s).1.Days x ≠ 0 ↔
      (mapGetN links.Days x ≠ 0 ∨
        ∃ m, m ∈ ms ∧ x ∈ (monthWeeks year m).flatten ∧ monthOf x = m)) ∧
    (∀ m ∈ ms, (weeksGet (allocMonthsAux year ms links s).1.Weeks m).length
        = (monthWeeks year m).length ∧
      (∀ h ∈ weeksGet (allocMonthsAux year ms links s).1.Weeks m, 1 ≤ h)) ∧
    (∀ k, k ∈ links.Weeks.map Prod.fst →
      weeksGet (allocMonthsAux year ms links s).1.Weeks k = weeksGet links.Weeks k) ∧
    (∀ m ∈ ms, (allocMonthsAux year ms links s).1.Months.getD (m - 1) 0 ≠ 0) ∧
    (∀ i, links.Months.getD i 0 ≠ 0 →
      (allocMonthsAux year ms links s).1.Months.getD i 0 ≠ 0) := by
  induction ms with
  | nil =>
    intro links s hnext hdv _ _ _
    simp only [allocMonthsAux]
    refine ⟨trivial, trivial, trivial, trivial, hnext, hdv, fun h => h, fun x => by simp,
      fun m hm => absurd hm (List.not_mem_nil m), fun k _ => trivial,
      fun m hm => absurd hm (List.not_mem_nil m), fun i h => h⟩
  | cons m rest ih =>
    intro links s hnext hdv hfresh hnd hmlen
    have hmfresh : m ∉ links.Weeks.map Prod.fst := hfresh m (List.mem_cons_self m rest)
    have hmlt : m - 1 < links.Months.length := hmlen m (List.mem_cons_self m rest)
    simp only [allocMonthsAux, addLink]
    obtain ⟨w1, w2, w3⟩ := allocWeeksAux_spec m 0 (monthWeeks year m).length
      { next := s.next + 1, events := s.events ++ [(Target.month m, s.next)] }
    rcases hw : allocWeeksAux m 0 (monthWeeks year m).length
        { next := s.next + 1, events := s.events ++ [(Target.month m, s.next)] }
      with ⟨whs, s2⟩
    rw [hw] at w1 w2 w3
    simp only at w1 w2 w3
    have hs2 : 1 ≤ s2.next := by omega
    have hwv : ∀ h ∈ whs, 1 ≤ h := w3 (by show 1 ≤ s.next + 1; omega)
    obtain ⟨d1, d2, d3, d4, d5, d6, d7, d8, d9⟩ := allocDaysAux_spec m
      (monthWeeks year m).flatten
      { links with Months := links.Months.set (m - 1) s.next,
                   Weeks := links.Weeks ++ [(m, whs)] }
      s2 hs2 hdv
    rcases hdd : allocDaysAux m (monthWeeks year m).flatten
        { links with Months := links.Months.set (m - 1) s.next,
                     Weeks := links.Weeks ++ [(m, whs)] }
        s2
      with ⟨links2, s3⟩
    rw [hdd] at d1 d2 d3 d4 d5 d6 d7 d8 d9
    simp only at d1 d2 d3 d4 d5 d6 d7 d8 d9
    have hrfresh : ∀ m' ∈ rest, m' ∉ links2.Weeks.map Prod.fst := by
      intro m' hm' hk
      rw [d3] at hk
      simp only [List.map_append, List.map_cons, List.map_nil, List.mem_append,
        List.mem_cons, List.not_mem_nil] at hk
      rcases hk with hk | hk
      · exact hfresh m' (List.mem_cons_of_mem m hm') hk
      · rcases hk with hk | hk
        · exact (List.nodup_cons.mp hnd).1 (hk ▸ hm')
        · exact hk
    have hrlen : ∀ m' ∈ rest, m' - 1 < links2.Months.length := by
      intro m' hm'
      rw [d2, List.length_set]
      exact hmlen m' (List.mem_cons_of_mem m hm')
    obtain ⟨i1, i2, i3, i4, i5, i6, i7, i8, i9, i10, i11, i12⟩ :=
      ih links2 s3 d6 d7 hrfresh (List.nodup_cons.mp hnd).2 hrlen
    have hlink2weeks : links2.Weeks = links.Weeks ++ [(m, whs)] := d3
    have hmkeys : m ∈ links2.Weeks.map Prod.fst := by
      rw [hlink2weeks]
      simp
    have hwm : weeksGet links2.Weeks m = whs := by
      rw [hlink2weeks, weeksGet_append_right _ _ _ hmfresh, weeksGet_single]
    refine ⟨?_, ?_, ?_, ?_, i5, i6, ?_, ?_, ?_, ?_, ?_, ?_⟩
    · rw [i1, d1]
    · rw [i2, d4]
    · rw [i3, d5]
    · rw [i4, d2, List.length_set]
    · intro hnodup
      exact i7 (d8 hnodup)
    · intro x
      rw [i8 x, d9 x]
      constructor
      · rintro ((hA | ⟨hmem, hmo⟩) | ⟨m', hm', hx⟩)
        · exact Or.inl hA
        · exact Or.inr ⟨m, List.mem_cons_self m rest, hmem, hmo⟩
        · exact Or.inr ⟨m', List.mem_cons_of_mem m hm', hx⟩
      · rintro (hA | ⟨m', hm', hx⟩)
        · exact Or.inl (Or.inl hA)
        · rcases List.mem_cons.mp hm' with rfl | hm'
          · exact Or.inl (Or.inr ⟨hx.1, hx.2⟩)
          · exact Or.inr ⟨m', hm', hx⟩
    · intro m' hm'
      rcases List.mem_cons.mp hm' with rfl | hm'
      · rw [i10 m' hmkeys, hwm]
        exact ⟨w1, hwv⟩
      · exact i9 m' hm'
    · intro k hk
      have hk2 : k ∈ links2.Weeks.map Prod.fst := by
        rw [hlink2weeks]
        simp only [List.map_append, List.mem_append]
        exact Or.inl hk
      rw [i10 k hk2, hlink2weeks, weeksGet_append_left _ _ _ hk]
    · intro m' hm'
      rcases List.mem_cons.mp hm' with rfl | hm'
      · apply i12
        rw [d2, getD_set_self _ _ _ hmlt]
        omega
      · exact i11 m' hm'
    · intro i hi
      apply i12
      rw [d2]
      by_cases hieq : i = m - 1
      · subst hieq
        rw [getD_set_self _ _ _ hmlt]
        omega
      · rw [getD_set_ne _ _ _ _ (fun h => hieq h.symm)]
        exact hi

theorem mem_months_iff (m : Nat) :
    m ∈ (List.range 12).map (· + 1) ↔ 1 ≤ m ∧ m ≤ 12 := by
  simp only [List.mem_map, List.mem_range]
  constructor
  · rintro ⟨a, ha, rfl⟩
    omega
  · rintro ⟨h1, h2⟩
    exact ⟨m - 1, by omega, by omega⟩

section

attribute [local irreducible] allocMonthsAux

theorem allocPass_spec (cfg : PlannerConfig) :
    (allocPass cfg).1.Year = 1 ∧
    (∀ m, 1 ≤ m → m ≤ 12 → (allocPass cfg).1.Months.getD (m - 1) 0 ≠ 0) ∧
    (∀ m, 1 ≤ m → m ≤ 12 →
      (weeksGet (allocPass cfg).1.Weeks m).length = (monthWeeks cfg.Year m).length ∧
      ∀ h ∈ weeksGet (allocPass cfg).1.Weeks m, 1 ≤ h) ∧
    (∀ x, mapGetN (allocPass cfg).1.Days x ≠ 0 ↔
      ∃ m, 1 ≤ m ∧ m ≤ 12 ∧ x ∈ (monthWeeks cfg.Year m).flatten ∧ monthOf x = m) ∧
    ((allocPass cfg).1.Days.map Prod.fst).Nodup ∧
    (cfg.Layout.ShowCollections = true →
      mapGetS (allocPass cfg).1.Hubs "Collections" ≠ 0 ∧
      ∀ n ∈ collNames, mapGetS (allocPass cfg).1.Collections n ≠ 0) ∧
    (cfg.Layout.ShowCollections = false →
      (allocPass cfg).1.Hubs = [] ∧ (allocPass cfg).1.Collections = []) := by
  obtain ⟨a1, a2, a3, a4, a5, a6, a7, a8, a9, a10, a11, a12⟩ :=
    allocMonthsAux_spec cfg.Year ((List.range 12).map (· + 1))
      { newLinks with Year := 1 } { next := 2, events := [(Target.year, 1)] }
      (by show 1 ≤ 2; omega)
      (fun p hp => absurd hp (List.not_mem_nil p))
      (fun m _ hk => absurd hk (List.not_mem_nil m))
      (by decide)
      (by decide)
  rcases hA : allocMonthsAux cfg.Year ((List.range 12).map (· + 1))
      { newLinks with Year := 1 } { next := 2, events := [(Target.year, 1)] }
    with ⟨links2, s2⟩
  rw [hA] at a1 a2 a3 a4 a5 a6 a7 a8 a9 a10 a11 a12
  simp only at a1 a2 a3 a4 a5 a6 a7 a8 a9 a10 a11 a12
  have hup : allocPass cfg =
      (if cfg.Layout.ShowCollections then
        ({ links2 with Hubs := [("Collections", s2.next)],
                       Collections := [("Writing", s2.next + 1),
                         ("Ideas", s2.next + 2), ("OOO", s2.next + 3)] },
          { next := s2.next + 4,
            events := s2.events ++ [(Target.hub, s2.next)] ++
              [(Target.coll "Writing", s2.next + 1)] ++
              [(Target.coll "Ideas", s2.next + 2)] ++
              [(Target.coll "OOO", s2.next + 3)] })
      else (links2, s2)) := by
    simp only [allocPass, addLink, List.nil_append, Nat.reduceAdd, hA]
  rw [hup]
  have hY2 : links2.Year = 1 := a1
  have hDays0 : ∀ x, mapGetN links2.Days x ≠ 0 ↔
      ∃ m, 1 ≤ m ∧ m ≤ 12 ∧ x ∈ (monthWeeks cfg.Year m).flatten ∧ monthOf x = m := by
    intro x
    rw [a8 x]
    constructor
    · rintro (h0 | ⟨m, hm, hx1, hx2⟩)
      · exact absurd rfl h0
      · exact ⟨m, ((mem_months_iff m).mp hm).1, ((mem_months_iff m).mp hm).2, hx1, hx2⟩
    · rintro ⟨m, h1, h2, hx1, hx2⟩
      exact Or.inr ⟨m, (mem_months_iff m).mpr ⟨h1, h2⟩, hx1, hx2⟩
  have hNodup2 : (links2.Days.map Prod.fst).Nodup := a7 List.nodup_nil
  have hM2 : ∀ m, 1 ≤ m → m ≤ 12 → links2.Months.getD (m - 1) 0 ≠ 0 :=
    fun m h1 h2 => a11 m ((mem_months_iff m).mpr ⟨h1, h2⟩)
  have hW2 : ∀ m, 1 ≤ m → m ≤ 12 →
      (weeksGet links2.Weeks m).length = (monthWeeks cfg.Year m).length ∧
      ∀ h ∈ weeksGet links2.Weeks m, 1 ≤ h :=
    fun m h1 h2 => a9 m ((mem_months_iff m).mpr ⟨h1, h2⟩)
  rcases hsc : cfg.Layout.ShowCollections
  · rw [if_neg (by simp)]
    exact ⟨hY2, hM2, hW2, hDays0, hNodup2,
      fun h => absurd h (by simp), fun _ => ⟨a3, a2⟩⟩
  · rw [if_pos rfl]
    refine ⟨hY2, hM2, hW2, hDays0, hNodup2, fun _ => ⟨?_, ?_⟩,
      fun h => absurd h (by simp)⟩
    · show mapGetS [("Collections", s2.next)] "Collections" ≠ 0
      rw [show mapGetS [("Collections", s2.next)] "Collections" = s2.next from rfl]
      omega
    · intro n hn
      have h5 : 1 ≤ s2.next := a5
      simp only [collNames, List.mem_cons, List.not_mem_nil, or_false] at hn
      rcases hn with rfl | rfl | rfl
      · show mapGetS [("Writing", s2.next + 1), ("Ideas", s2.next + 2),
          ("OOO", s2.next + 3)] "Writing" ≠ 0
        rw [show mapGetS [("Writing", s2.next + 1), ("Ideas", s2.next + 2),
          ("OOO", s2.next + 3)] "Writing" = s2.next + 1 from rfl]
        omega
      · show mapGetS [("Writing", s2.next + 1), ("Ideas", s2.next + 2),
          ("OOO", s2.next + 3)] "Ideas" ≠ 0
        rw [show mapGetS [("Writing", s2.next + 1), ("Ideas", s2.next + 2),
          ("OOO", s2.next + 3)] "Ideas" = s2.next + 2 from rfl]
        omega
      · show mapGetS [("Writing", s2.next + 1), ("Ideas", s2.next + 2),
          ("OOO", s2.next + 3)] "OOO" ≠ 0
        rw [show mapGetS [("Writing", s2.next + 1), ("Ideas", s2.next + 2),
          ("OOO", s2.next + 3)] "OOO" = s2.next + 3 from rfl]
        omega

end

/-!
## Render-pass structure

Membership characterizations of the emitted page list, and the day-page
dates of each month block.
-/

theorem filterMap_flatMap_comm {α β γ : Type} (l : List α) (g : α → List β)
    (f : β → Option γ) :
    (l.flatMap g).filterMap f = l.flatMap (fun a => (g a).filterMap f) := by
  induction l with
  | nil => rfl
  | cons a t ih => simp only [List.flatMap_cons, List.filterMap_append, ih]

theorem flatMap_filter_eq (l : List (List Nat)) (q : Nat → Bool) :
    l.flatMap (fun wk => wk.filter q) = l.flatten.filter q := by
  induction l with
  | nil => rfl
  | cons a t ih => simp only [List.flatMap_cons, List.flatten_cons,
      List.filter_append, ih]

theorem enumFrom_mem_iff {α : Type} (d : α) (l : List α) :
    ∀ (n : Nat) (q : Nat × α),
      q ∈ List.enumFrom n l ↔ ∃ i, i < l.length ∧ q = (n + i, l.getD i d) := by
  induction l with
  | nil => intro n q; simp [List.enumFrom]
  | cons a t ih =>
    intro n q
    simp only [List.enumFrom, List.mem_cons, ih (n + 1), List.length_cons]
    constructor
    · rintro (rfl | ⟨i, hi, rfl⟩)
      · exact ⟨0, by omega, by simp⟩
      · refine ⟨i + 1, by omega, ?_⟩
        simp only [List.getD_cons_succ]
        congr 1
        omega
    · rintro ⟨i, hi, rfl⟩
      match i with
      | 0 => exact Or.inl (by simp)
      | i + 1 =>
        refine Or.inr ⟨i, by omega, ?_⟩
        simp only [List.getD_cons_succ]
        refine congrArg₂ Prod.mk ?_ rfl
        omega

theorem enumFrom_flatMap {α β : Type} (f : α → List β) :
    ∀ (l : List α) (n : Nat),
      (List.enumFrom n l).flatMap (fun p => f p.2) = l.flatMap f := by
  intro l
  induction l with
  | nil => intro n; rfl
  | cons a t ih =>
    intro n
    simp only [List.enumFrom, List.flatMap_cons, ih (n + 1)]

theorem range_map_getD {α : Type} (n i : Nat) (f : Nat → α) (d : α) (h : i < n) :
    ((List.range n).map f).getD i d = f i := by
  rw [List.getD_eq_getElem?_getD, List.getElem?_map, List.getElem?_range h]
  rfl

theorem monthWeeks_length (y m : Nat) : (monthWeeks y m).length = mwCount y m := by
  rw [monthWeeks_eq, List.length_map, List.length_range]

theorem monthWeeks_getD (y m idx : Nat) (h : idx < mwCount y m) :
    (monthWeeks y m).getD idx [] = List.range' (mwStart y m + 7 * idx) 7 := by
  rw [monthWeeks_eq, range_map_getD _ _ _ _ h]

theorem mem_monthBlock_cases (cfg : PlannerConfig) (links : Links) (m : Nat)
    (p : PageOut) (hp : p ∈ monthBlock cfg links m) :
    p = monthPage cfg links m ∨
    (cfg.Layout.ShowWeeks = true ∧ ∃ idx, idx < (monthWeeks cfg.Year m).length ∧
      p ∈ weekBlock cfg links m idx ((monthWeeks cfg.Year m).getD idx [])) := by
  simp only [monthBlock, List.mem_cons] at hp
  rcases hp with rfl | hp
  · exact Or.inl rfl
  rcases hsw : cfg.Layout.ShowWeeks
  · rw [hsw] at hp
    simp only [Bool.false_eq_true, if_false, List.not_mem_nil] at hp
  · rw [hsw] at hp
    simp only [if_true, List.mem_flatMap, List.enum] at hp
    obtain ⟨q, hq, hpq⟩ := hp
    obtain ⟨i, hi, rfl⟩ := (enumFrom_mem_iff [] _ 0 q).mp hq
    refine Or.inr ⟨rfl, i, hi, ?_⟩
    simpa using hpq

theorem mem_weekBlock_cases (cfg : PlannerConfig) (links : Links) (m idx : Nat)
    (wk : List Nat) (p : PageOut) (hp : p ∈ weekBlock cfg links m idx wk) :
    p = weekPage cfg links m idx wk ∨
    (cfg.Layout.ShowDays = true ∧ ∃ d, d ∈ wk ∧ monthOf d = m ∧
      p = dayPage cfg links d ((weeksGet links.Weeks m).getD idx 0)) := by
  simp only [weekBlock, List.mem_cons] at hp
  rcases hp with rfl | hp
  · exact Or.inl rfl
  rcases hsd : cfg.Layout.ShowDays
  · rw [hsd] at hp
    simp only [Bool.false_eq_true, if_false, List.not_mem_nil] at hp
  · rw [hsd] at hp
    simp only [if_true, List.mem_map, List.mem_filter, beq_iff_eq] at hp
    obtain ⟨d, ⟨hd1, hd2⟩, rfl⟩ := hp
    exact Or.inr ⟨rfl, d, hd1, hd2, rfl⟩

theorem mem_build_cases (cfg : PlannerConfig) (p : PageOut)
    (hp : p ∈ buildPlanner cfg) :
    p = yearPage cfg (allocPass cfg).1 ∨
    (∃ m, 1 ≤ m ∧ m ≤ 12 ∧ p ∈ monthBlock cfg (allocPass cfg).1 m) ∨
    (cfg.Layout.ShowCollections = true ∧
      (p = collectionsHub cfg (allocPass cfg).1 ∨
       ∃ n, n ∈ collNames ∧ p = collectionPage cfg (allocPass cfg).1 n)) := by
  simp only [buildPlanner, renderPass, List.mem_cons, List.mem_append,
    List.mem_flatMap, List.mem_range] at hp
  rcases hp with rfl | hp | hp
  · exact Or.inl rfl
  · obtain ⟨i, hi, hmem⟩ := hp
    exact Or.inr (Or.inl ⟨i + 1, by omega, by omega, hmem⟩)
  · rcases hsc : cfg.Layout.ShowCollections
    · rw [hsc] at hp
      simp only [Bool.false_eq_true, if_false, List.not_mem_nil] at hp
    · rw [hsc] at hp
      simp only [if_true, List.mem_cons, List.mem_map] at hp
      rcases hp with rfl | ⟨n, hn, rfl⟩
      · exact Or.inr (Or.inr ⟨rfl, Or.inl rfl⟩)
      · exact Or.inr (Or.inr ⟨rfl, Or.inr ⟨n, hn, rfl⟩⟩)

theorem monthPage_mem_build (cfg : PlannerConfig) (m : Nat) (hm1 : 1 ≤ m)
    (hm2 : m ≤ 12) : monthPage cfg (allocPass cfg).1 m ∈ buildPlanner cfg := by
  simp only [buildPlanner, renderPass, List.mem_cons, List.mem_append,
    List.mem_flatMap, List.mem_range]
  refine Or.inr (Or.inl ⟨m - 1, by omega, ?_⟩)
  rw [show m - 1 + 1 = m from by omega]
  exact List.mem_cons_self _ _

theorem weekPage_mem_build (cfg : PlannerConfig) (m idx : Nat) (hm1 : 1 ≤ m)
    (hm2 : m ≤ 12) (hsw : cfg.Layout.ShowWeeks = true)
    (hidx : idx < (monthWeeks cfg.Year m).length) :
    weekPage cfg (allocPass cfg).1 m idx ((monthWeeks cfg.Year m).getD idx [])
      ∈ buildPlanner cfg := by
  simp only [buildPlanner, renderPass, List.mem_cons, List.mem_append,
    List.mem_flatMap, List.mem_range]
  refine Or.inr (Or.inl ⟨m - 1, by omega, ?_⟩)
  rw [show m - 1 + 1 = m from by omega]
  simp only [monthBlock, hsw, if_true, List.mem_cons, List.mem_flatMap, List.enum]
  refine Or.inr ⟨(idx, (monthWeeks cfg.Year m).getD idx []), ?_, ?_⟩
  · exact (enumFrom_mem_iff [] _ 0 _).mpr ⟨idx, hidx, by simp⟩
  · exact List.mem_cons_self _ _

theorem addNav_target_ne_zero (l : Layout) (pw : Rat) (home back : Nat)
    (r : RectLink) (hr : r ∈ addNav l pw home back) : r.target ≠ 0 := by
  simp only [addNav, List.mem_append] at hr
  rcases hr with hr | hr
  · by_cases hb : back ≠ 0
    · rw [if_pos hb] at hr
      simp only [List.mem_cons, List.not_mem_nil, or_false] at hr
      subst hr
      exact hb
    · rw [if_neg hb] at hr
      exact absurd hr (List.not_mem_nil r)
  · by_cases hh : home ≠ 0
    · rw [if_pos hh] at hr
      simp only [List.mem_cons, List.not_mem_nil, or_false] at hr
      subst hr
      exact hh
    · rw [if_neg hh] at hr
      exact absurd hr (List.not_mem_nil r)

theorem addNav_back_mem (l : Layout) (pw : Rat) (home back : Nat) (hb : back ≠ 0) :
    { x := l.Margin, y := l.Margin * (3/5), w := 42, h := 16,
      target := back : RectLink } ∈ addNav l pw home back := by
  simp only [addNav, List.mem_append, if_pos hb]
  exact Or.inl (List.mem_cons_self _ _)

theorem addNav_no_back (l : Layout) (pw : Rat) (home : Nat) (hh : home ≠ 0) :
    addNav l pw home 0 =
      [{ x := pw - l.Margin - 60, y := l.Margin * (3/5), w := 60, h := 16,
         target := home }] := by
  simp only [addNav, ne_eq, not_true_eq_false, if_false, if_pos hh,
    List.nil_append]

theorem gridTargets_ne_zero (cells : List (String × Nat)) (t : Nat)
    (ht : t ∈ gridTargets cells) : t ≠ 0 := by
  simp only [gridTargets, List.mem_map, List.mem_filter] at ht
  obtain ⟨c, ⟨_, hc⟩, rfl⟩ := ht
  simpa using hc

theorem dayDates_weekBlock (cfg : PlannerConfig) (links : Links) (m idx : Nat)
    (wk : List Nat) (hd : cfg.Layout.ShowDays = true) :
    dayDates (weekBlock cfg links m idx wk)
      = wk.filter (fun d => monthOf d == m) := by
  simp only [weekBlock, hd, if_true, dayDates, weekPage, dayPage,
    List.filterMap_cons, List.filterMap_map]
  exact List.filterMap_eq_map _ ▸ List.map_id _

theorem filterMap_none_eq_nil {α β : Type} (l : List α) :
    l.filterMap (fun _ => (none : Option β)) = [] := by
  induction l with
  | nil => rfl
  | cons a t ih => simp only [List.filterMap_cons, ih]

theorem dayDates_flatMap {α : Type} (l : List α) (g : α → List PageOut) :
    dayDates (l.flatMap g) = l.flatMap (fun a => dayDates (g a)) := by
  simp only [dayDates]
  exact filterMap_flatMap_comm l g _

theorem dayDates_append (l1 l2 : List PageOut) :
    dayDates (l1 ++ l2) = dayDates l1 ++ dayDates l2 := by
  simp only [dayDates, List.filterMap_append]

theorem dayDates_cons_month (cfg : PlannerConfig) (links : Links) (m : Nat)
    (ps : List PageOut) :
    dayDates (monthPage cfg links m :: ps) = dayDates ps := by
  simp only [dayDates, monthPage, List.filterMap_cons]

theorem dayDates_cons_year (cfg : PlannerConfig) (links : Links)
    (ps : List PageOut) :
    dayDates (yearPage cfg links :: ps) = dayDates ps := by
  simp only [dayDates, yearPage, List.filterMap_cons]

theorem dayDates_colltail (cfg : PlannerConfig) (links : Links) :
    dayDates (if cfg.Layout.ShowCollections then
      collectionsHub cfg links :: collNames.map (collectionPage cfg links)
    else []) = [] := by
  rcases hsc : cfg.Layout.ShowCollections
  · simp only [Bool.false_eq_true, if_false, dayDates, List.filterMap_nil]
  · simp only [if_true, dayDates, collectionsHub, collectionPage,
      List.filterMap_cons, List.filterMap_map]
    exact filterMap_none_eq_nil _

theorem dayDates_monthBlock (cfg : PlannerConfig) (links : Links) (m : Nat)
    (hw : cfg.Layout.ShowWeeks = true) (hd : cfg.Layout.ShowDays = true) :
    dayDates (monthBlock cfg links m)
      = (monthWeeks cfg.Year m).flatten.filter (fun d => monthOf d == m) := by
  have hwb : ∀ q : Nat × List Nat,
      dayDates (weekBlock cfg links m q.1 q.2)
        = q.2.filter (fun d => monthOf d == m) :=
    fun q => dayDates_weekBlock cfg links m q.1 q.2 hd
  simp only [monthBlock, hw, if_true, dayDates_cons_month, dayDates_flatMap,
    hwb, List.enum]
  exact (enumFrom_flatMap (fun wk : List Nat => wk.filter (fun d => monthOf d == m))
    _ 0).trans (flatMap_filter_eq _ _)

theorem dayDates_build (cfg : PlannerConfig) (hw : cfg.Layout.ShowWeeks = true)
    (hd : cfg.Layout.ShowDays = true) :
    dayDates (buildPlanner cfg)
      = (List.range 12).flatMap (fun i =>
          (monthWeeks cfg.Year (i + 1)).flatten.filter
            (fun d => monthOf d == i + 1)) := by
  have hmb : ∀ i : Nat,
      dayDates (monthBlock cfg (allocPass cfg).1 (i + 1))
        = (monthWeeks cfg.Year (i + 1)).flatten.filter
            (fun d => monthOf d == i + 1) :=
    fun i => dayDates_monthBlock cfg (allocPass cfg).1 (i + 1) hw hd
  simp only [buildPlanner, renderPass, dayDates_cons_year, dayDates_append,
    dayDates_colltail, List.append_nil, dayDates_flatMap, hmb]

theorem flatMap_nodup_of_key {α : Type} (key : α → Nat) :
    ∀ (l : List Nat) (f : Nat → List α), l.Nodup →
      (∀ a ∈ l, (f a).Nodup) → (∀ a ∈ l, ∀ x ∈ f a, key x = a) →
      (l.flatMap f).Nodup := by
  intro l
  induction l with
  | nil => intro f _ _ _; simp
  | cons a t ih =>
    intro f hnd hf hk
    rw [List.flatMap_cons]
    refine List.Nodup.append (hf a (List.mem_cons_self a t))
      (ih f (List.nodup_cons.mp hnd).2
        (fun b hb => hf b (List.mem_cons_of_mem a hb))
        (fun b hb x hx => hk b (List.mem_cons_of_mem a hb) x hx)) ?_
    intro x hxa hxt
    obtain ⟨b, hb, hxb⟩ := List.mem_flatMap.mp hxt
    have h1 : key x = a := hk a (List.mem_cons_self a t) x hxa
    have h2 : key x = b := hk b (List.mem_cons_of_mem a hb) x hxb
    exact (List.nodup_cons.mp hnd).1 (by rw [← h2, h1] at hb; exact hb)

theorem weekP_mem_elim (cfg : PlannerConfig) (m idx b : Nat)
    (nav : List RectLink) (rows : List WeekDayRow)
    (hp : PageOut.weekP m idx b nav rows ∈ buildPlanner cfg) :
    cfg.Layout.ShowWeeks = true ∧ 1 ≤ m ∧ m ≤ 12 ∧
    idx < (monthWeeks cfg.Year m).length ∧
    b = (weeksGet (allocPass cfg).1.Weeks m).getD idx 0 ∧
    nav = addNav cfg.Layout (pageWidth cfg.Layout) (allocPass cfg).1.Year
      ((allocPass cfg).1.Months.getD (m - 1) 0) ∧
    rows = ((monthWeeks cfg.Year m).getD idx []).map (fun d =>
      { date := d, gray := decide (monthOf d ≠ m),
        link := if cfg.Layout.ShowDays ∧ monthOf d = m then
            some (mapGetN (allocPass cfg).1.Days d)
          else none }) := by
  rcases mem_build_cases cfg _ hp with hc | ⟨m', h1, h2, hmb⟩ | ⟨_, hc | ⟨n, _, hc⟩⟩
  · exact absurd hc (by simp [yearPage])
  · rcases mem_monthBlock_cases cfg _ m' _ hmb with hc | ⟨hsw, idx', hidx, hwb⟩
    · exact absurd hc (by simp [monthPage])
    rcases mem_weekBlock_cases cfg _ m' idx' _ _ hwb with hc | ⟨_, d, _, _, hc⟩
    · rw [weekPage] at hc
      obtain ⟨rfl, rfl, hb, hnav, hrows⟩ := PageOut.weekP.injEq .. ▸ hc
      exact ⟨hsw, h1, h2, hidx, hb, hnav, hrows⟩
    · exact absurd hc (by simp [dayPage])
  · exact absurd hc (by simp [collectionsHub])
  · exact absurd hc (by simp [collectionPage])

theorem dayP_mem_elim (cfg : PlannerConfig) (d b : Nat) (nav : List RectLink)
    (hp : PageOut.dayP d b nav ∈ buildPlanner cfg) :
    cfg.Layout.ShowWeeks = true ∧ cfg.Layout.ShowDays = true ∧
    ∃ m idx, 1 ≤ m ∧ m ≤ 12 ∧ idx < (monthWeeks cfg.Year m).length ∧
      d ∈ (monthWeeks cfg.Year m).getD idx [] ∧ monthOf d = m ∧
      b = mapGetN (allocPass cfg).1.Days d ∧
      nav = addNav cfg.Layout (pageWidth cfg.Layout) (allocPass cfg).1.Year
        ((weeksGet (allocPass cfg).1.Weeks m).getD idx 0) := by
  rcases mem_build_cases cfg _ hp with hc | ⟨m', h1, h2, hmb⟩ | ⟨_, hc | ⟨n, _, hc⟩⟩
  · exact absurd hc (by simp [yearPage])
  · rcases mem_monthBlock_cases cfg _ m' _ hmb with hc | ⟨hsw, idx', hidx, hwb⟩
    · exact absurd hc (by simp [monthPage])
    rcases mem_weekBlock_cases cfg _ m' idx' _ _ hwb with hc | ⟨hsd, d', hd1, hd2, hc⟩
    · exact absurd hc (by simp [weekPage])
    · rw [dayPage] at hc
      obtain ⟨rfl, hb, hnav⟩ := PageOut.dayP.injEq .. ▸ hc
      exact ⟨hsw, hsd, m', idx', h1, h2, hidx, hd1, hd2, hb, hnav⟩
  · exact absurd hc (by simp [collectionsHub])
  · exact absurd hc (by simp [collectionPage])

theorem monthP_mem_elim (cfg : PlannerConfig) (m b : Nat) (nav : List RectLink)
    (wr : List WeekRow) (dc : List DayCell)
    (hp : PageOut.monthP m b nav wr dc ∈ buildPlanner cfg) :
    1 ≤ m ∧ m ≤ 12 ∧ b = (allocPass cfg).1.Months.getD (m - 1) 0 ∧
    nav = addNav cfg.Layout (pageWidth cfg.Layout) (allocPass cfg).1.Year 0 ∧
    PageOut.monthP m b nav wr dc = monthPage cfg (allocPass cfg).1 m := by
  rcases mem_build_cases cfg _ hp with hc | ⟨m', h1, h2, hmb⟩ | ⟨_, hc | ⟨n, _, hc⟩⟩
  · exact absurd hc (by simp [yearPage])
  · rcases mem_monthBlock_cases cfg _ m' _ hmb with hc | ⟨hsw, idx', hidx, hwb⟩
    · rw [monthPage] at hc
      obtain ⟨rfl, hb, hnav, hwr, hdc⟩ := PageOut.monthP.injEq .. ▸ hc
      refine ⟨h1, h2, hb, hnav, ?_⟩
      rw [monthPage]
      simp only [PageOut.monthP.injEq]
      exact ⟨trivial, hb, hnav, hwr, hdc⟩
    rcases mem_weekBlock_cases cfg _ m' idx' _ _ hwb with hc | ⟨_, d, _, _, hc⟩
    · exact absurd hc (by simp [weekPage])
    · exact absurd hc (by simp [dayPage])
  · exact absurd hc (by simp [collectionsHub])
  · exact absurd hc (by simp [collectionPage])

/-!
## The claims
-/

/-- C1: for every year and month, `monthWeeks` returns a non-empty sequence
of weeks, each exactly 7 consecutive dates starting on a Monday; the weeks
are consecutive 7-day strides starting `(weekday(first)+6) % 7` days before
the 1st; and the in-month dates across all weeks are exactly the calendar
dates of the month, with no duplicates and no gaps. -/
theorem claim_C1 (y m : Nat) (hy : 1 ≤ y) (hm1 : 1 ≤ m) (hm2 : m ≤ 12) :
    monthWeeks y m ≠ [] ∧
    monthWeeks y m =
      (List.range (mwCount y m)).map (fun j => List.range' (mwStart y m + 7 * j) 7) ∧
    weekday (mwStart y m) = 1 ∧
    mwStart y m + mwOffset y m = firstOfMonth y m ∧
    (∀ w ∈ monthWeeks y m, ∃ s, weekday s = 1 ∧ w = List.range' s 7) ∧
    (monthWeeks y m).flatten = List.range' (mwStart y m) (7 * mwCount y m) ∧
    (monthWeeks y m).flatten.Nodup ∧
    (∀ x, (x ∈ (monthWeeks y m).flatten ∧ monthOf x = m) ↔
      ∃ d, 1 ≤ d ∧ d ≤ daysIn y m ∧ x = goDate y m d) := by
  have hlen := monthWeeks_length y m
  have hmod := mwStart_mod y m
  refine ⟨?_, monthWeeks_eq y m, ?_, ?_, ?_, ?_, monthWeeks_flatten_nodup y m,
    fun x => monthWeeks_dates y m x hy hm1 hm2⟩
  · intro hnil
    rw [hnil] at hlen
    rw [mwCount] at hlen
    simp only [List.length_nil] at hlen
    omega
  · rw [weekday]
    omega
  · rw [mwStart, mwOffset_eq]
    omega
  · intro w hw
    rw [monthWeeks_eq] at hw
    obtain ⟨j, _, rfl⟩ := List.mem_map.mp hw
    exact ⟨mwStart y m + 7 * j, by rw [weekday]; omega, rfl⟩
  · rw [monthWeeks_eq]
    exact flatten_weeks _ _

theorem claim_C1_witness :
    ((1:Nat) ≤ 2025 ∧ (1:Nat) ≤ 1 ∧ (1:Nat) ≤ 12) ∧ monthWeeks 2025 1 ≠ [] :=
  ⟨⟨by decide, by decide, by decide⟩,
    (claim_C1 2025 1 (by decide) (by decide) (by decide)).1⟩

/-- C3: the day count `time.Date(Y, month+1, 0).Day()` gives February 29
exactly for Gregorian leap years and 28 otherwise, and for December the
`month+1` rolls over into January of the next year, giving 31. -/
theorem claim_C3 (y : Nat) (hy : 1 ≤ y) :
    (dayOf (goDate y (2 + 1) 0) = 29 ↔ (y % 4 = 0 ∧ (y % 100 ≠ 0 ∨ y % 400 = 0))) ∧
    (¬(y % 4 = 0 ∧ (y % 100 ≠ 0 ∨ y % 400 = 0)) → dayOf (goDate y (2 + 1) 0) = 28) ∧
    normM y (12 + 1) = (y + 1, 1) ∧
    dayOf (goDate y (12 + 1) 0) = 31 := by
  have hfeb : goDate y (2 + 1) 0 = lastOfMonth y 2 := rfl
  have hdec : goDate y (12 + 1) 0 = lastOfMonth y 12 := rfl
  have hdi2 := daysIn_bounds y 2 (by omega) (by omega)
  have hdi12 := daysIn_bounds y 12 (by omega) (by omega)
  have hday2 : dayOf (goDate y (2 + 1) 0) = daysIn y 2 := by
    rw [hfeb, lastOfMonth_eq y 2 hy (by omega) (by omega), dayOf,
      absDate_goDate y 2 (daysIn y 2) hy (by omega) (by omega) (by omega)
        (Nat.le_refl _)]
  have hday12 : dayOf (goDate y (12 + 1) 0) = daysIn y 12 := by
    rw [hdec, lastOfMonth_eq y 12 hy (by omega) (by omega), dayOf,
      absDate_goDate y 12 (daysIn y 12) hy (by omega) (by omega) (by omega)
        (Nat.le_refl _)]
  have h12 : daysIn y 12 = 31 := by
    rw [daysIn]
    rfl
  have h2 : daysIn y 2 = if isLeap y then 29 else 28 := by
    rw [daysIn]
    rcases hL : isLeap y <;> rfl
  refine ⟨?_, ?_, rfl, by rw [hday12, h12]⟩
  · rw [hday2, h2, ← isLeap_iff]
    rcases hL : isLeap y
    · refine ⟨fun h => absurd h (by decide), fun h => absurd h (by decide)⟩
    · exact ⟨fun _ => rfl, fun _ => rfl⟩
  · rw [hday2, h2, ← isLeap_iff]
    intro h
    rcases hL : isLeap y
    · rfl
    · exact absurd hL h

theorem claim_C3_witness :
    (1:Nat) ≤ 2024 ∧ dayOf (goDate 2024 (2 + 1) 0) = 29 :=
  ⟨by decide, (claim_C3 2024 (by decide)).1.mpr (by decide)⟩

section

attribute [local irreducible] allocMonthsAux

theorem allocPass_congr (c1 c2 : PlannerConfig) (hY : c1.Year = c2.Year)
    (hL : c1.Layout = c2.Layout) : allocPass c1 = allocPass c2 := by
  simp only [allocPass, hY, hL]

theorem renderPass_congr (c1 c2 : PlannerConfig) (hY : c1.Year = c2.Year)
    (hL : c1.Layout = c2.Layout) (links : Links) :
    renderPass c1 links = renderPass c2 links := by
  have hcoll : collectionPage c1 = collectionPage c2 := by
    funext l n
    simp only [collectionPage, hY, hL]
  simp only [renderPass, yearPage, monthBlock, weekBlock, monthPage, weekPage,
    dayPage, collectionsHub, addNav, pageWidth, hY, hL, hcoll]

/-- C8: two builds with the same year and layout perform the identical
sequence of anchor allocations and produce identical page bindings and
navigation wiring. -/
theorem claim_C8 (cfg1 cfg2 : PlannerConfig) (hY : cfg1.Year = cfg2.Year)
    (hL : cfg1.Layout = cfg2.Layout) :
    allocEvents cfg1 = allocEvents cfg2 ∧
    bindings (buildPlanner cfg1) = bindings (buildPlanner cfg2) ∧
    wiring (buildPlanner cfg1) = wiring (buildPlanner cfg2) := by
  have hA := allocPass_congr cfg1 cfg2 hY hL
  have hB : buildPlanner cfg1 = buildPlanner cfg2 := by
    unfold buildPlanner
    rw [hA]
    exact renderPass_congr cfg1 cfg2 hY hL _
  refine ⟨?_, by rw [hB], by rw [hB]⟩
  unfold allocEvents
  rw [hA]

end

theorem claim_C8_witness :
    fullConfig2025.Year
        = ({ fullConfig2025 with Output := "other.pdf" } : PlannerConfig).Year ∧
    fullConfig2025.Layout
        = ({ fullConfig2025 with Output := "other.pdf" } : PlannerConfig).Layout ∧
    allocEvents fullConfig2025
        = allocEvents { fullConfig2025 with Output := "other.pdf" } :=
  ⟨rfl, rfl,
    (claim_C8 fullConfig2025 { fullConfig2025 with Output := "other.pdf" }
      rfl rfl).1⟩


theorem months_getD_ne_zero (cfg : PlannerConfig) (m : Nat) (h1 : 1 ≤ m)
    (h2 : m ≤ 12) : (allocPass cfg).1.Months.getD (m - 1) 0 ≠ 0 :=
  (allocPass_spec cfg).2.1 m h1 h2

theorem weeksGet_getD_ne_zero (cfg : PlannerConfig) (m idx : Nat) (h1 : 1 ≤ m)
    (h2 : m ≤ 12) (hidx : idx < (monthWeeks cfg.Year m).length) :
    (weeksGet (allocPass cfg).1.Weeks m).getD idx 0 ≠ 0 := by
  obtain ⟨hlen, hmem⟩ := (allocPass_spec cfg).2.2.1 m h1 h2
  have hidx' : idx < (weeksGet (allocPass cfg).1.Weeks m).length := by
    rw [hlen]; exact hidx
  rw [List.getD_eq_getElem _ _ hidx']
  have h := hmem _ (List.getElem_mem hidx')
  omega

theorem days_get_ne_zero (cfg : PlannerConfig) (m d : Nat) (h1 : 1 ≤ m)
    (h2 : m ≤ 12) (hmem : d ∈ (monthWeeks cfg.Year m).flatten)
    (hmo : monthOf d = m) : mapGetN (allocPass cfg).1.Days d ≠ 0 :=
  ((allocPass_spec cfg).2.2.2.1 d).mpr ⟨m, h1, h2, hmem, hmo⟩

/-- C4: every rendered week page's back link targets exactly the anchor its
owning month page binds to itself (`links.Months[m-1]`), and every rendered
day page's back link targets exactly the anchor its owning week page binds
to itself (`links.Weeks[m][idx]`); both anchors are nonzero. -/
theorem claim_C4 (cfg : PlannerConfig) :
    (∀ m idx b nav rows, PageOut.weekP m idx b nav rows ∈ buildPlanner cfg →
      monthPage cfg (allocPass cfg).1 m ∈ buildPlanner cfg ∧
      (monthPage cfg (allocPass cfg).1 m).bound
          = (allocPass cfg).1.Months.getD (m - 1) 0 ∧
      { x := cfg.Layout.Margin, y := cfg.Layout.Margin * (3/5), w := 42, h := 16,
        target := (allocPass cfg).1.Months.getD (m - 1) 0 : RectLink } ∈ nav ∧
      (allocPass cfg).1.Months.getD (m - 1) 0 ≠ 0) ∧
    (∀ d b nav, PageOut.dayP d b nav ∈ buildPlanner cfg →
      ∃ m idx,
        weekPage cfg (allocPass cfg).1 m idx ((monthWeeks cfg.Year m).getD idx [])
            ∈ buildPlanner cfg ∧
        d ∈ (monthWeeks cfg.Year m).getD idx [] ∧ monthOf d = m ∧
        (weekPage cfg (allocPass cfg).1 m idx
            ((monthWeeks cfg.Year m).getD idx [])).bound
          = (weeksGet (allocPass cfg).1.Weeks m).getD idx 0 ∧
        { x := cfg.Layout.Margin, y := cfg.Layout.Margin * (3/5), w := 42, h := 16,
          target := (weeksGet (allocPass cfg).1.Weeks m).getD idx 0 : RectLink }
            ∈ nav ∧
        (weeksGet (allocPass cfg).1.Weeks m).getD idx 0 ≠ 0) := by
  constructor
  · intro m idx b nav rows hp
    obtain ⟨hsw, h1, h2, hidx, hb, hnav, hrows⟩ :=
      weekP_mem_elim cfg m idx b nav rows hp
    have hnz := months_getD_ne_zero cfg m h1 h2
    refine ⟨monthPage_mem_build cfg m h1 h2, rfl, ?_, hnz⟩
    rw [hnav]
    exact addNav_back_mem cfg.Layout (pageWidth cfg.Layout) _ _ hnz
  · intro d b nav hp
    obtain ⟨hsw, hsd, m, idx, h1, h2, hidx, hd1, hd2, hb, hnav⟩ :=
      dayP_mem_elim cfg d b nav hp
    have hnz := weeksGet_getD_ne_zero cfg m idx h1 h2 hidx
    refine ⟨m, idx, weekPage_mem_build cfg m idx h1 h2 hsw hidx, hd1, hd2, rfl,
      ?_, hnz⟩
    rw [hnav]
    exact addNav_back_mem cfg.Layout (pageWidth cfg.Layout) _ _ hnz


theorem claim_C4_witness :
    weekPage fullConfig2025 (allocPass fullConfig2025).1 1 0
        ((monthWeeks fullConfig2025.Year 1).getD 0 []) ∈ buildPlanner fullConfig2025 ∧
    (allocPass fullConfig2025).1.Months.getD 0 0 ≠ 0 := by
  have hp := weekPage_mem_build fullConfig2025 1 0 (by decide) (by decide)
    (by decide) (by decide)
  exact ⟨hp, ((claim_C4 fullConfig2025).1 1 0 _ _ _ hp).2.2.2⟩

/-- C6: on every rendered week page the 7 dates of the week appear in order;
an in-month date's row is not grayed and, when day pages are enabled, links
to that date's nonzero day anchor; an adjacent-month date's row is grayed
and never linked. -/
theorem claim_C6 (cfg : PlannerConfig) :
    ∀ m idx b nav rows, PageOut.weekP m idx b nav rows ∈ buildPlanner cfg →
      rows.map (fun r => r.date) = List.range' (mwStart cfg.Year m + 7 * idx) 7 ∧
      ∀ r ∈ rows,
        (r.gray = false ↔ monthOf r.date = m) ∧
        (cfg.Layout.ShowDays = true → monthOf r.date = m →
          r.link = some (mapGetN (allocPass cfg).1.Days r.date) ∧
          mapGetN (allocPass cfg).1.Days r.date ≠ 0) ∧
        (monthOf r.date ≠ m → r.link = none) ∧
        (cfg.Layout.ShowDays = false → r.link = none) := by
  intro m idx b nav rows hp
  obtain ⟨hsw, h1, h2, hidx, hb, hnav, hrows⟩ := weekP_mem_elim cfg m idx b nav rows hp
  have hcnt : idx < mwCount cfg.Year m := by
    rw [← monthWeeks_length cfg.Year m]; exact hidx
  have hwk := monthWeeks_getD cfg.Year m idx hcnt
  have hwkmem : (monthWeeks cfg.Year m).getD idx [] ∈ monthWeeks cfg.Year m := by
    rw [List.getD_eq_getElem _ _ hidx]
    exact List.getElem_mem hidx
  subst hrows
  constructor
  · have hmapid : ∀ l : List Nat, (l.map (fun d =>
        ({ date := d, gray := decide (monthOf d ≠ m),
           link := if cfg.Layout.ShowDays = true ∧ monthOf d = m then
               some (mapGetN (allocPass cfg).1.Days d)
             else none } : WeekDayRow))).map (fun r => r.date) = l := by
      intro l
      induction l with
      | nil => rfl
      | cons a t ih => simp only [List.map_cons, ih]
    rw [hmapid, hwk]
  · intro r hr
    obtain ⟨d, hd, rfl⟩ := List.mem_map.mp hr
    have hdmem : d ∈ (monthWeeks cfg.Year m).flatten :=
      List.mem_flatten.mpr ⟨_, hwkmem, hd⟩
    refine ⟨?_, ?_, ?_, ?_⟩
    · show decide (monthOf d ≠ m) = false ↔ monthOf d = m
      simp [decide_eq_false_iff_not]
    · intro hsd hmo
      constructor
      · show (if cfg.Layout.ShowDays = true ∧ monthOf d = m then
            some (mapGetN (allocPass cfg).1.Days d) else none)
          = some (mapGetN (allocPass cfg).1.Days d)
        rw [if_pos ⟨hsd, hmo⟩]
      · exact days_get_ne_zero cfg m d h1 h2 hdmem hmo
    · intro hmo
      show (if cfg.Layout.ShowDays = true ∧ monthOf d = m then
          some (mapGetN (allocPass cfg).1.Days d) else none) = none
      rw [if_neg (fun hc => hmo hc.2)]
    · intro hsd0
      show (if cfg.Layout.ShowDays = true ∧ monthOf d = m then
          some (mapGetN (allocPass cfg).1.Days d) else none) = none
      rw [if_neg (fun hc => by rw [hsd0] at hc; exact absurd hc.1 (by simp))]

theorem claim_C6_witness :
    weekPage fullConfig2025 (allocPass fullConfig2025).1 1 0
        ((monthWeeks fullConfig2025.Year 1).getD 0 []) ∈ buildPlanner fullConfig2025 ∧
    (((monthWeeks fullConfig2025.Year 1).getD 0 []).map (fun d =>
      ({ date := d, gray := decide (monthOf d ≠ 1),
         link := if fullConfig2025.Layout.ShowDays = true ∧ monthOf d = 1 then
             some (mapGetN (allocPass fullConfig2025).1.Days d)
           else none } : WeekDayRow))).map (fun r => r.date)
      = List.range' (mwStart fullConfig2025.Year 1 + 7 * 0) 7 := by
  have hp := weekPage_mem_build fullConfig2025 1 0 (by decide) (by decide)
    (by decide) (by decide)
  exact ⟨hp, (claim_C6 fullConfig2025 1 0 _ _ _ hp).1⟩

/-- C9 (as the code behaves): every month page draws exactly one navigation
link — the home link at the top-right targeting the year anchor, which is
always 1 and hence nonzero; no back link is drawn because `monthPage`
passes back = 0 and `addNav` omits zero-handle links. -/
theorem claim_C9 (cfg : PlannerConfig) (p : PageOut) (hp : p ∈ buildPlanner cfg)
    (hm : p.isMonth = true) :
    (allocPass cfg).1.Year = 1 ∧
    p.navRects = [{ x := pageWidth cfg.Layout - cfg.Layout.Margin - 60,
                    y := cfg.Layout.Margin * (3/5), w := 60, h := 16,
                    target := (allocPass cfg).1.Year }] := by
  have hY := (allocPass_spec cfg).1
  refine ⟨hY, ?_⟩
  cases p with
  | monthP m b nav wr dc =>
    obtain ⟨h1, h2, hb, hnav, _⟩ := monthP_mem_elim cfg m b nav wr dc hp
    show nav = _
    rw [hnav, addNav_no_back _ _ _ (by rw [hY]; omega)]
  | yearP b mc cc => simp [PageOut.isMonth] at hm
  | weekP m idx b nav rows => simp [PageOut.isMonth] at hm
  | dayP d b nav => simp [PageOut.isMonth] at hm
  | hubP b nav cells => simp [PageOut.isMonth] at hm
  | collP n b nav => simp [PageOut.isMonth] at hm

theorem claim_C9_witness :
    (monthPage minimalConfig2024 (allocPass minimalConfig2024).1 1
        ∈ buildPlanner minimalConfig2024 ∧
      (monthPage minimalConfig2024 (allocPass minimalConfig2024).1 1).isMonth
        = true) ∧
    (allocPass minimalConfig2024).1.Year = 1 := by
  have hp := monthPage_mem_build minimalConfig2024 1 (by decide) (by decide)
  exact ⟨⟨hp, rfl⟩, (claim_C9 minimalConfig2024 _ hp rfl).1⟩

set_option maxRecDepth 20000 in
theorem claim_C9_counterexample :
    ¬ (∀ p ∈ buildPlanner minimalConfig2024, p.isMonth = true →
        2 ≤ p.navRects.length) := by decide

theorem monthPage_targets_flags_off (cfg : PlannerConfig) (links : Links)
    (m : Nat) (hw : cfg.Layout.ShowWeeks = false)
    (hd : cfg.Layout.ShowDays = false) :
    (monthPage cfg links m).linkTargets
      = (addNav cfg.Layout (pageWidth cfg.Layout) links.Year 0).map
          (fun r => r.target) := by
  simp only [monthPage, PageOut.linkTargets, hw, hd, Bool.false_eq_true,
    if_false, List.filterMap_map]
  rw [show ((fun r : WeekRow => r.link) ∘ fun idx : Nat =>
      ({ monday := ((monthWeeks cfg.Year m).getD idx []).getD 0 0,
         sunday := ((monthWeeks cfg.Year m).getD idx []).getD 6 0,
         link := none } : WeekRow))
      = (fun _ : Nat => (none : Option Nat)) from rfl]
  rw [show ((fun c : DayCell => c.link) ∘ fun i : Nat =>
      ({ dayNum := i + 1, link := none } : DayCell))
      = (fun _ : Nat => (none : Option Nat)) from rfl]
  rw [filterMap_none_eq_nil, filterMap_none_eq_nil, List.append_nil,
    List.append_nil]

/-- C5 (as the code behaves): even with `ShowWeeks` and `ShowDays` off, the
pre-pass still allocates a nonzero anchor for every week row and every
in-month date — the claim that no week/day anchors are allocated is false —
but rendering then emits no week or day pages and, treating zero handles as
"omit the link", never draws a link to anchor zero. -/
theorem claim_C5 (cfg : PlannerConfig) (hy : 1 ≤ cfg.Year)
    (hw : cfg.Layout.ShowWeeks = false) (hd : cfg.Layout.ShowDays = false) :
    (∀ m, 1 ≤ m → m ≤ 12 → weeksGet (allocPass cfg).1.Weeks m ≠ []) ∧
    (∀ m d, 1 ≤ m → m ≤ 12 → 1 ≤ d → d ≤ daysIn cfg.Year m →
      mapGetN (allocPass cfg).1.Days (goDate cfg.Year m d) ≠ 0) ∧
    (∀ p ∈ buildPlanner cfg, p.isWeek = false ∧ p.isDay = false) ∧
    (∀ p ∈ buildPlanner cfg, ∀ t ∈ p.linkTargets, t ≠ 0) := by
  refine ⟨?_, ?_, ?_, ?_⟩
  · intro m h1 h2 hnil
    obtain ⟨hlen, _⟩ := (allocPass_spec cfg).2.2.1 m h1 h2
    rw [hnil] at hlen
    rw [monthWeeks_length] at hlen
    rw [mwCount] at hlen
    simp only [List.length_nil] at hlen
    omega
  · intro m d h1 h2 hd1 hd2
    have hmw := (monthWeeks_dates cfg.Year m (goDate cfg.Year m d) hy h1 h2).mpr
      ⟨d, hd1, hd2, rfl⟩
    exact days_get_ne_zero cfg m _ h1 h2 hmw.1 hmw.2
  · intro p hp
    rcases mem_build_cases cfg p hp with rfl | ⟨m, h1, h2, hmb⟩ |
      ⟨hsc, rfl | ⟨n, hn, rfl⟩⟩
    · exact ⟨rfl, rfl⟩
    · rcases mem_monthBlock_cases cfg _ m p hmb with rfl | ⟨hsw, _, _, _⟩
      · exact ⟨rfl, rfl⟩
      · rw [hw] at hsw
        exact absurd hsw (by simp)
    · exact ⟨rfl, rfl⟩
    · exact ⟨rfl, rfl⟩
  · intro p hp t ht
    rcases mem_build_cases cfg p hp with rfl | ⟨m, h1, h2, hmb⟩ |
      ⟨hsc, rfl | ⟨n, hn, rfl⟩⟩
    · simp only [yearPage, PageOut.linkTargets, List.mem_append] at ht
      rcases ht with ht | ht
      · exact gridTargets_ne_zero _ t ht
      · exact gridTargets_ne_zero _ t ht
    · rcases mem_monthBlock_cases cfg _ m p hmb with rfl | ⟨hsw, _, _, _⟩
      · rw [monthPage_targets_flags_off cfg _ m hw hd] at ht
        obtain ⟨r, hr, rfl⟩ := List.mem_map.mp ht
        exact addNav_target_ne_zero _ _ _ _ r hr
      · rw [hw] at hsw
        exact absurd hsw (by simp)
    · simp only [collectionsHub, PageOut.linkTargets, List.mem_append] at ht
      rcases ht with ht | ht
      · obtain ⟨r, hr, rfl⟩ := List.mem_map.mp ht
        exact addNav_target_ne_zero _ _ _ _ r hr
      · exact gridTargets_ne_zero _ t ht
    · simp only [collectionPage, PageOut.linkTargets] at ht
      obtain ⟨r, hr, rfl⟩ := List.mem_map.mp ht
      exact addNav_target_ne_zero _ _ _ _ r hr

set_option maxRecDepth 20000 in
theorem claim_C5_counterexample :
    minimalConfig2024.Layout.ShowWeeks = false ∧
    minimalConfig2024.Layout.ShowDays = false ∧
    weeksGet (allocPass minimalConfig2024).1.Weeks 1 ≠ [] ∧
    (allocPass minimalConfig2024).1.Days ≠ [] := by decide

theorem claim_C5_witness :
    ((1:Nat) ≤ minimalConfig2024.Year ∧
      minimalConfig2024.Layout.ShowWeeks = false ∧
      minimalConfig2024.Layout.ShowDays = false) ∧
    weeksGet (allocPass minimalConfig2024).1.Weeks 1 ≠ [] :=
  ⟨⟨by decide, by decide, by decide⟩,
    (claim_C5 minimalConfig2024 (by decide) (by decide) (by decide)).1 1
      (by decide) (by decide)⟩

/-- C2: after the allocation pass, `links.Days` holds exactly one nonzero
anchor per calendar date of the target year (keys unduplicated) and none for
any other date; with weeks and days enabled the render pass emits exactly
one day page per registered date, under the month that owns it. -/
theorem claim_C2 (cfg : PlannerConfig) (hy : 1 ≤ cfg.Year)
    (hw : cfg.Layout.ShowWeeks = true) (hd : cfg.Layout.ShowDays = true) :
    (∀ x, mapGetN (allocPass cfg).1.Days x ≠ 0 ↔
      ∃ m d, 1 ≤ m ∧ m ≤ 12 ∧ 1 ≤ d ∧ d ≤ daysIn cfg.Year m ∧
        x = goDate cfg.Year m d) ∧
    ((allocPass cfg).1.Days.map Prod.fst).Nodup ∧
    (dayDates (buildPlanner cfg)).Nodup ∧
    (∀ x, x ∈ dayDates (buildPlanner cfg) ↔
      mapGetN (allocPass cfg).1.Days x ≠ 0) ∧
    (∀ m, 1 ≤ m → m ≤ 12 → ∀ x,
      x ∈ dayDates (monthBlock cfg (allocPass cfg).1 m) ↔
        ∃ d, 1 ≤ d ∧ d ≤ daysIn cfg.Year m ∧ x = goDate cfg.Year m d) := by
  obtain ⟨hY, hM, hW, hD, hNd, _, _⟩ := allocPass_spec cfg
  have hiff : ∀ x, mapGetN (allocPass cfg).1.Days x ≠ 0 ↔
      ∃ m d, 1 ≤ m ∧ m ≤ 12 ∧ 1 ≤ d ∧ d ≤ daysIn cfg.Year m ∧
        x = goDate cfg.Year m d := by
    intro x
    rw [hD x]
    constructor
    · rintro ⟨m, h1, h2, hmem, hmo⟩
      obtain ⟨d, hd1, hd2, rfl⟩ :=
        (monthWeeks_dates cfg.Year m x hy h1 h2).mp ⟨hmem, hmo⟩
      exact ⟨m, d, h1, h2, hd1, hd2, rfl⟩
    · rintro ⟨m, d, h1, h2, hd1, hd2, rfl⟩
      obtain ⟨hmem, hmo⟩ :=
        (monthWeeks_dates cfg.Year m _ hy h1 h2).mpr ⟨d, hd1, hd2, rfl⟩
      exact ⟨m, h1, h2, hmem, hmo⟩
  have hblock : ∀ m, 1 ≤ m → m ≤ 12 → ∀ x,
      x ∈ dayDates (monthBlock cfg (allocPass cfg).1 m) ↔
        ∃ d, 1 ≤ d ∧ d ≤ daysIn cfg.Year m ∧ x = goDate cfg.Year m d := by
    intro m h1 h2 x
    rw [dayDates_monthBlock cfg _ m hw hd, List.mem_filter]
    constructor
    · rintro ⟨hmem, hmo⟩
      exact (monthWeeks_dates cfg.Year m x hy h1 h2).mp ⟨hmem, by simpa using hmo⟩
    · intro hex
      obtain ⟨hmem, hmo⟩ := (monthWeeks_dates cfg.Year m x hy h1 h2).mpr hex
      exact ⟨hmem, by simpa using hmo⟩
  have hdd := dayDates_build cfg hw hd
  refine ⟨hiff, hNd, ?_, ?_, hblock⟩
  · rw [hdd]
    refine flatMap_nodup_of_key (fun x => monthOf x - 1) (List.range 12) _
      (List.nodup_range 12) ?_ ?_
    · intro i _
      exact (monthWeeks_flatten_nodup cfg.Year (i + 1)).filter _
    · intro i _ x hx
      rw [List.mem_filter] at hx
      have hmo : monthOf x = i + 1 := by simpa using hx.2
      show monthOf x - 1 = i
      omega
  · intro x
    rw [hdd, List.mem_flatMap]
    constructor
    · rintro ⟨i, hi, hx⟩
      rw [List.mem_range] at hi
      rw [List.mem_filter] at hx
      exact (hD x).mpr ⟨i + 1, by omega, by omega, hx.1, by simpa using hx.2⟩
    · intro hne
      obtain ⟨m, h1, h2, hmem, hmo⟩ := (hD x).mp hne
      refine ⟨m - 1, ?_, ?_⟩
      · rw [List.mem_range]
        omega
      · rw [List.mem_filter]
        rw [show m - 1 + 1 = m from by omega]
        exact ⟨hmem, by simpa using hmo⟩

theorem claim_C2_witness :
    ((1:Nat) ≤ fullConfig2025.Year ∧ fullConfig2025.Layout.ShowWeeks = true ∧
      fullConfig2025.Layout.ShowDays = true) ∧
    ((allocPass fullConfig2025).1.Days.map Prod.fst).Nodup :=
  ⟨⟨by decide, by decide, by decide⟩,
    (claim_C2 fullConfig2025 (by decide) (by decide) (by decide)).2.1⟩

theorem flatMap_single {α β : Type} (l : List α) (f : α → β) :
    l.flatMap (fun a => [f a]) = l.map f := by
  induction l with
  | nil => rfl
  | cons a t ih =>
    simp only [List.flatMap_cons, List.map_cons, ih, List.singleton_append]

set_option maxRecDepth 40000 in
/-- C7: with weeks and days off and collections on, any year's build is
exactly 17 pages in traversal order (year, 12 months, hub, 3 collections);
the full 2025 build has 4–6 week rows and a day column matching the real
calendar (28–31 days) on every month page, 7 dates on every week page, and
365 day pages in total. -/
theorem claim_C7 (cfg : PlannerConfig) (hw : cfg.Layout.ShowWeeks = false)
    (hd : cfg.Layout.ShowDays = false)
    (hc : cfg.Layout.ShowCollections = true) :
    (buildPlanner cfg =
      yearPage cfg (allocPass cfg).1 ::
        ((List.range 12).map (fun i => monthPage cfg (allocPass cfg).1 (i + 1)) ++
          collectionsHub cfg (allocPass cfg).1 ::
            collNames.map (collectionPage cfg (allocPass cfg).1)) ∧
      (buildPlanner cfg).length = 17) ∧
    ((∀ s ∈ monthRowStats (buildPlanner fullConfig2025),
        4 ≤ s.2.1 ∧ s.2.1 ≤ 6 ∧ 28 ≤ s.2.2 ∧ s.2.2 ≤ 31 ∧
        s.2.2 = daysIn 2025 s.1) ∧
      (∀ c ∈ weekRowCounts (buildPlanner fullConfig2025), c = 7) ∧
      ((buildPlanner fullConfig2025).filter (fun p => p.isDay)).length = 365) := by
  have hstruct : buildPlanner cfg =
      yearPage cfg (allocPass cfg).1 ::
        ((List.range 12).map (fun i => monthPage cfg (allocPass cfg).1 (i + 1)) ++
          collectionsHub cfg (allocPass cfg).1 ::
            collNames.map (collectionPage cfg (allocPass cfg).1)) := by
    simp only [buildPlanner, renderPass, monthBlock, hw, hc, Bool.false_eq_true,
      if_false, if_true]
    rw [flatMap_single]
  refine ⟨⟨hstruct, ?_⟩, by decide, by decide, by decide⟩
  rw [hstruct]
  rfl

theorem claim_C7_witness :
    (minimalConfig2024.Layout.ShowWeeks = false ∧
      minimalConfig2024.Layout.ShowDays = false ∧
      minimalConfig2024.Layout.ShowCollections = true) ∧
    (buildPlanner minimalConfig2024).length = 17 :=
  ⟨⟨by decide, by decide, by decide⟩,
    (claim_C7 minimalConfig2024 (by decide) (by decide) (by decide)).1.2⟩

/-!
## The `dotGrid` loop: divergence and termination over float64
-/

theorem int_log_le (q : ℚ) (k : ℤ) (hq : 0 < q) (h : q < 2 ^ (k + 1)) :
    Int.log 2 q ≤ k := by
  by_contra hc
  push_neg at hc
  have h1 : (2:ℚ) ^ (k + 1) ≤ 2 ^ Int.log 2 q :=
    zpow_le_zpow_right₀ (by norm_num) (by omega)
  have h2 : (2:ℚ) ^ Int.log 2 q ≤ q := Int.zpow_log_le_self (by norm_num) hq
  linarith

theorem int_log_ge (q : ℚ) (k : ℤ) (h : (2:ℚ) ^ k ≤ q) : k ≤ Int.log 2 q := by
  by_contra hc
  push_neg at hc
  have h1 : (2:ℚ) ^ (Int.log 2 q + 1) ≤ 2 ^ k :=
    zpow_le_zpow_right₀ (by norm_num) (by omega)
  have h2 : q < (2:ℚ) ^ (Int.log 2 q + 1) := Int.lt_zpow_succ_log_self (by norm_num) q
  linarith

theorem rndInt_intCast (n : ℤ) : rndInt (n:ℚ) = n := by
  rw [rndInt, Int.floor_intCast, if_pos (by rw [sub_self]; norm_num)]

theorem rndInt_le (s : ℚ) (t : ℤ) (h : s ≤ (t:ℚ)) : rndInt s ≤ t := by
  have hft : ⌊s⌋ ≤ t := by
    have h2 := Int.floor_le_floor h
    rwa [Int.floor_intCast] at h2
  rw [rndInt]
  by_cases c1 : s - ⌊s⌋ < 1/2
  · rw [if_pos c1]
    exact hft
  · rw [if_neg c1]
    have hlt : ⌊s⌋ < t := by
      rcases eq_or_lt_of_le h with heq | hlt
      · exfalso
        apply c1
        rw [heq, Int.floor_intCast, sub_self]
        norm_num
      · have h2 : ((⌊s⌋:ℚ)) < (t:ℚ) := lt_of_le_of_lt (Int.floor_le s) hlt
        exact_mod_cast h2
    by_cases c2 : 1/2 < s - ⌊s⌋
    · rw [if_pos c2]
      omega
    · rw [if_neg c2]
      by_cases c3 : 2 ∣ ⌊s⌋
      · rw [if_pos c3]
        omega
      · rw [if_neg c3]
        omega

theorem two_zpow_mul_neg (k : ℤ) : (2:ℚ) ^ (-k) * 2 ^ k = 1 := by
  rw [← zpow_add₀ (by norm_num : (2:ℚ) ≠ 0)]
  simp

theorem roundF_int (n : ℤ) (h : n.natAbs < 2 ^ 53) : roundF (n:ℚ) = (n:ℚ) := by
  rcases eq_or_ne n 0 with rfl | hn
  · rw [roundF]
    simp
  · have hq0 : ((n:ℚ)) ≠ 0 := Int.cast_ne_zero.mpr hn
    have habs : (0:ℚ) < |(n:ℚ)| := abs_pos.mpr hq0
    have hcast : |(n:ℚ)| = ((n.natAbs : ℕ) : ℚ) := by
      rw [Int.cast_natAbs, Int.cast_abs]
    have hb : |(n:ℚ)| < 2 ^ ((52:ℤ) + 1) := by
      rw [hcast, show ((52:ℤ)+1) = (53:ℤ) from rfl,
        show ((2:ℚ)^(53:ℤ)) = ((2^53 : ℕ) : ℚ) from by norm_num]
      exact_mod_cast h
    have hlog : Int.log 2 |(n:ℚ)| ≤ 52 := int_log_le _ 52 habs hb
    have he : expOf (n:ℚ) ≤ 0 := by
      rw [expOf]
      exact max_le (by norm_num) (by omega)
    obtain ⟨k, hk⟩ : ∃ k : ℕ, expOf (n:ℚ) = -(k:ℤ) :=
      ⟨(-(expOf (n:ℚ))).toNat, by omega⟩
    rw [roundF, if_neg hq0, hk, show (-(-(k:ℤ))) = (k:ℤ) from by ring,
      show ((n:ℚ)) * 2 ^ ((k:ℤ)) = (((n * 2^k : ℤ)):ℚ) from by
        push_cast
        rw [zpow_natCast],
      rndInt_intCast,
      show (((n * 2^k : ℤ)):ℚ) = (n:ℚ) * 2 ^ ((k:ℤ)) from by
        push_cast
        rw [zpow_natCast],
      mul_assoc, ← zpow_add₀ (by norm_num : (2:ℚ) ≠ 0)]
    simp

theorem fadd_le_36 (y sp : Rat) (hy : y ≤ 36) (hsp : sp ≤ 0) :
    fadd y sp ≤ 36 := by
  rw [fadd]
  set q := y + sp with hqdef
  have hq36 : q ≤ 36 := by rw [hqdef]; linarith
  rcases eq_or_ne q 0 with h0 | h0
  · rw [roundF, if_pos h0]
    norm_num
  · rw [roundF, if_neg h0]
    rcases lt_or_le 0 q with hpos | hneg
    · have habs : |q| = q := abs_of_pos hpos
      have hlog : Int.log 2 |q| ≤ 5 := by
        rw [habs]
        refine int_log_le q 5 hpos ?_
        rw [show ((5:ℤ)+1) = (6:ℤ) from rfl,
          show ((2:ℚ)^(6:ℤ)) = 64 from by norm_num]
        linarith
      have he : expOf q ≤ 2 := by
        rw [expOf]
        exact max_le (by norm_num) (by omega)
      obtain ⟨k, hk⟩ : ∃ k : ℕ, (2:ℤ) - expOf q = (k:ℤ) :=
        ⟨((2:ℤ) - expOf q).toNat, by omega⟩
      have ht : ((9 * 2 ^ k : ℤ) : ℚ) = 36 * 2 ^ (-(expOf q)) := by
        push_cast
        rw [show (-(expOf q)) = (k:ℤ) - 2 from by omega,
          zpow_sub₀ (by norm_num : (2:ℚ) ≠ 0), zpow_natCast,
          show ((2:ℚ)^((2:ℤ))) = 4 from by norm_num]
        ring
      have hs : q * 2 ^ (-(expOf q)) ≤ ((9 * 2 ^ k : ℤ) : ℚ) := by
        rw [ht]
        exact mul_le_mul_of_nonneg_right hq36 (by positivity)
      have hr := rndInt_le _ _ hs
      have hle : (rndInt (q * 2 ^ (-(expOf q))) : ℚ) ≤ ((9 * 2 ^ k : ℤ) : ℚ) := by
        exact_mod_cast hr
      calc (rndInt (q * 2 ^ (-expOf q)) : ℚ) * 2 ^ expOf q
          ≤ ((9 * 2 ^ k : ℤ) : ℚ) * 2 ^ expOf q := by
            exact mul_le_mul_of_nonneg_right hle (by positivity)
        _ = 36 * (2 ^ (-(expOf q)) * 2 ^ (expOf q)) := by
            rw [ht]
            ring
        _ = 36 := by
            rw [two_zpow_mul_neg]
            norm_num
    · have hs : q * 2 ^ (-(expOf q)) ≤ ((0:ℤ):ℚ) := by
        push_cast
        have h2 : (0:ℚ) < 2 ^ (-(expOf q)) := by positivity
        nlinarith
      have hr := rndInt_le _ _ hs
      have h2 : (0:ℚ) < 2 ^ (expOf q) := by positivity
      have h3 : (rndInt (q * 2 ^ (-(expOf q))) : ℚ) ≤ 0 := by exact_mod_cast hr
      nlinarith

theorem fadd_36_stall (sp : Rat) (h1 : 0 < sp) (h2 : sp ≤ 1 / 2 ^ 49) :
    fadd 36 sp = 36 := by
  rw [fadd]
  have hq0 : (36:ℚ) + sp ≠ 0 := by positivity
  have habs : |(36:ℚ) + sp| = 36 + sp := abs_of_pos (by linarith)
  have hT : (2:ℚ) ^ ((47:ℤ)) = 140737488355328 := by norm_num
  have hup : sp * 140737488355328 < 1/2 := by
    calc sp * 140737488355328 ≤ (1/2^49) * 140737488355328 :=
          mul_le_mul_of_nonneg_right h2 (by norm_num)
      _ < 1/2 := by norm_num
  have hlog : Int.log 2 |(36:ℚ) + sp| = 5 := by
    rw [habs]
    apply le_antisymm
    · refine int_log_le _ 5 (by linarith) ?_
      rw [show ((5:ℤ)+1) = (6:ℤ) from rfl,
        show ((2:ℚ)^(6:ℤ)) = 64 from by norm_num]
      have hsp1 : sp ≤ 1 := le_trans h2 (by norm_num)
      linarith
    · refine int_log_ge _ 5 ?_
      rw [show ((2:ℚ)^(5:ℤ)) = 32 from by norm_num]
      linarith
  have he : expOf ((36:ℚ) + sp) = -47 := by
    rw [expOf, hlog, show (5:ℤ) - 52 = -47 from rfl]
    exact max_eq_right (by norm_num)
  have hfl : ⌊((36:ℚ) + sp) * 2 ^ ((47:ℤ))⌋ = (5066549580791808 : ℤ) := by
    rw [Int.floor_eq_iff, hT]
    push_cast
    constructor
    · nlinarith
    · nlinarith
  have hfrac : ((36:ℚ) + sp) * 2 ^ ((47:ℤ)) - ((5066549580791808:ℤ):ℚ) < 1/2 := by
    rw [hT]
    push_cast
    nlinarith
  rw [roundF, if_neg hq0, he, show (-(-47:ℤ)) = (47:ℤ) from by ring,
    rndInt, hfl, if_pos hfrac]
  push_cast
  rw [show ((2:ℚ)^((-47:ℤ))) = 1/140737488355328 from by norm_num]
  norm_num

theorem dotRowF_stall (x right sp : Rat) (hst : fadd x sp = x) (hx : x < right) :
    ∀ fuel, dotRowF fuel x right sp = none := by
  intro fuel
  induction fuel with
  | zero => rfl
  | succ n ih =>
    rw [dotRowF, if_pos hx, hst, ih]
    rfl

theorem dotRowF_le36 (right sp : Rat) (hsp : sp ≤ 0) (hr : (36:ℚ) < right) :
    ∀ (fuel : Nat) (x : Rat), x ≤ 36 → dotRowF fuel x right sp = none := by
  intro fuel
  induction fuel with
  | zero => intro x _; rfl
  | succ n ih =>
    intro x hx
    rw [dotRowF, if_pos (lt_of_le_of_lt hx hr),
      ih (fadd x sp) (fadd_le_36 x sp hx hsp)]
    rfl

theorem dotGridF_none_of_row (y bottom left right sp : Rat) (hy : y < bottom)
    (hrow : ∀ f, dotRowF f (fadd left sp) right sp = none) :
    ∀ fuel, dotGridF fuel y bottom left right sp = none := by
  intro fuel
  cases fuel with
  | zero => rfl
  | succ n =>
    rw [dotGridF, if_pos hy, hrow (n + 1)]

theorem dotRowF_int_some (right : ℚ) (sp : ℤ) (hsp : 1 ≤ sp)
    (hsp2 : (sp:ℚ) ≤ 2 ^ 52) (hr : right ≤ 2 ^ 52) :
    ∀ (M : Nat) (n : ℤ), 0 ≤ n →
      right - (n:ℚ) ≤ (M:ℚ) * (sp:ℚ) →
      (dotRowF (M + 1) (n:ℚ) right (sp:ℚ)).isSome = true := by
  intro M
  induction M with
  | zero =>
    intro n _ hb
    have hnr : ¬ ((n:ℚ) < right) := by push_cast at hb; linarith
    rw [dotRowF, if_neg hnr]
    rfl
  | succ M ih =>
    intro n hn hb
    by_cases hlt : (n:ℚ) < right
    · have hn52 : (n:ℚ) < 2 ^ 52 := lt_of_lt_of_le hlt hr
      have hnz : n < 2 ^ 52 := by exact_mod_cast hn52
      have hspz : sp ≤ 2 ^ 52 := by exact_mod_cast hsp2
      have habs : (n + sp).natAbs < 2 ^ 53 := by omega
      have hstep : fadd (n:ℚ) (sp:ℚ) = ((n + sp : ℤ):ℚ) := by
        rw [fadd, show ((n:ℚ) + (sp:ℚ)) = ((n + sp : ℤ):ℚ) from by push_cast; ring]
        exact roundF_int _ habs
      rw [dotRowF, if_pos hlt, hstep, Option.isSome_map']
      refine ih (n + sp) (by omega) ?_
      push_cast
      push_cast at hb
      linarith
    · rw [dotRowF, if_neg hlt]
      rfl

theorem dotGridF_int_some (left sp : ℤ) (right bottom : ℚ) (hsp : 1 ≤ sp)
    (hsp2 : (sp:ℚ) ≤ 2 ^ 52) (hr : right ≤ 2 ^ 52) (hb : bottom ≤ 2 ^ 52)
    (hl : 0 ≤ left) (hl2 : (left:ℚ) < 2 ^ 52) (N : Nat)
    (hN : right - ((left:ℚ) + (sp:ℚ)) ≤ (N:ℚ) * (sp:ℚ)) :
    ∀ (M : Nat) (y : ℤ), 0 ≤ y →
      bottom - (y:ℚ) ≤ (M:ℚ) * (sp:ℚ) →
      (dotGridF (M + N + 1) (y:ℚ) bottom (left:ℚ) right (sp:ℚ)).isSome = true := by
  have hsppos : (0:ℚ) < (sp:ℚ) := by exact_mod_cast hsp
  have hspz : sp ≤ 2 ^ 52 := by exact_mod_cast hsp2
  have hlz : left < 2 ^ 52 := by exact_mod_cast hl2
  have hlstep : fadd (left:ℚ) (sp:ℚ) = ((left + sp : ℤ):ℚ) := by
    rw [fadd, show ((left:ℚ) + (sp:ℚ)) = ((left + sp : ℤ):ℚ) from by push_cast; ring]
    exact roundF_int _ (by omega)
  intro M
  induction M with
  | zero =>
    intro y _ hby
    have hyb : ¬ ((y:ℚ) < bottom) := by push_cast at hby; linarith
    rw [show 0 + N + 1 = N + 1 from by omega, dotGridF, if_neg hyb]
    rfl
  | succ M ih =>
    intro y hy hby
    rw [show M + 1 + N + 1 = (M + N + 1) + 1 from by omega, dotGridF]
    by_cases hyb : (y:ℚ) < bottom
    · rw [if_pos hyb, hlstep]
      have hNle : (N:ℚ) * (sp:ℚ) ≤ ((M + N + 1 : ℕ):ℚ) * (sp:ℚ) := by
        apply mul_le_mul_of_nonneg_right _ hsppos.le
        exact_mod_cast show N ≤ M + N + 1 from by omega
      have hrow := dotRowF_int_some right sp hsp hsp2 hr (M + N + 1) (left + sp)
        (by omega)
        (by push_cast
            push_cast at hN
            nlinarith [hsppos.le, (Nat.cast_nonneg M : (0:ℚ) ≤ (M:ℚ))])
      obtain ⟨xs, hxs⟩ := Option.isSome_iff_exists.mp hrow
      rw [hxs]
      show ((dotGridF (M + N + 1) (fadd (y:ℚ) (sp:ℚ)) bottom (left:ℚ) right
        (sp:ℚ)).map (fun rest => (xs.map (fun x => (x, (y:ℚ)))) ++ rest)).isSome
          = true
      have hyz : y < 2 ^ 52 := by exact_mod_cast lt_of_lt_of_le hyb hb
      have hystep : fadd (y:ℚ) (sp:ℚ) = ((y + sp : ℤ):ℚ) := by
        rw [fadd, show ((y:ℚ) + (sp:ℚ)) = ((y + sp : ℤ):ℚ) from by push_cast; ring]
        exact roundF_int _ (by omega)
      rw [hystep, Option.isSome_map']
      refine ih (y + sp) (by omega) ?_
      push_cast
      push_cast at hby
      linarith
    · rw [if_neg hyb]
      rfl

theorem roundF_bottom_letter : roundF ((792:ℚ) - 36) = 756 := by
  rw [show ((792:ℚ) - 36) = ((756:ℤ):ℚ) from by norm_num,
    roundF_int 756 (by norm_num)]
  norm_num

theorem roundF_right_letter : roundF ((612:ℚ) - 36) = 576 := by
  rw [show ((612:ℚ) - 36) = ((576:ℤ):ℚ) from by norm_num,
    roundF_int 576 (by norm_num)]
  norm_num

/-- C10 (as the code behaves): over the program's float64 arithmetic, zero
or negative spacing makes the `dotGrid` loop run forever at the Letter
geometry, and every positive integer spacing up to `2^52` points (each
cursor step exact in binary64, covering the default 22 pt grid) terminates;
the claim's "every strictly positive spacing terminates" half is refuted by
the stalling spacings of the counterexample, whose additions round to no
progress. -/
theorem claim_C10 :
    (∀ sp : ℚ, sp ≤ 0 → ∀ fuel,
      dotGridFloat (mainLayout "Letter" sp true) 612 792 fuel = none) ∧
    (∀ sp : ℤ, 1 ≤ sp → (sp:ℚ) ≤ 2 ^ 52 →
      ∃ fuel,
        (dotGridFloat (mainLayout "Letter" ((sp:ℤ):ℚ) true) 612 792 fuel).isSome
          = true) := by
  constructor
  · intro sp hsp fuel
    simp only [dotGridFloat, mainLayout]
    rw [roundF_bottom_letter, roundF_right_letter]
    have h36 := fadd_le_36 36 sp (le_refl 36) hsp
    refine dotGridF_none_of_row _ _ _ _ _ (by linarith) ?_ fuel
    intro f
    exact dotRowF_le36 576 sp hsp (by norm_num) f (fadd 36 sp) h36
  · intro sp h1 h2
    have hsp1 : (1:ℚ) ≤ (sp:ℚ) := by exact_mod_cast h1
    have hspz : sp ≤ 2 ^ 52 := by exact_mod_cast h2
    refine ⟨756 + 540 + 1, ?_⟩
    simp only [dotGridFloat, mainLayout]
    rw [roundF_bottom_letter, roundF_right_letter]
    have hstep : fadd (36:ℚ) (sp:ℚ) = ((36 + sp : ℤ):ℚ) := by
      rw [fadd, show ((36:ℚ) + (sp:ℚ)) = ((36 + sp : ℤ):ℚ) from by push_cast; ring]
      exact roundF_int _ (by omega)
    have hres := dotGridF_int_some 36 sp 576 756 h1 h2 (by norm_num) (by norm_num)
      (by norm_num) (by norm_num) 540
      (by push_cast; nlinarith [hsp1]) 756 (36 + sp) (by omega)
      (by push_cast; nlinarith [hsp1])
    rw [hstep, show ((36:ℚ)) = (((36:ℤ)):ℚ) from by norm_num]
    exact hres

theorem claim_C10_counterexample :
    (∀ sp : ℚ, 0 < sp → sp ≤ 1 / 2 ^ 49 →
      ∀ fuel, dotGridFloat (mainLayout "Letter" sp true) 612 792 fuel = none) ∧
    (0 < (1:ℚ) / 2 ^ 60 ∧ (1:ℚ) / 2 ^ 60 ≤ 1 / 2 ^ 49 ∧
      ∃ m e : ℤ, (1:ℚ) / 2 ^ 60 = (m:ℚ) * 2 ^ e ∧ m.natAbs < 2 ^ 53 ∧
        -1074 ≤ e) := by
  constructor
  · intro sp h1 h2 fuel
    have hst := fadd_36_stall sp h1 h2
    simp only [dotGridFloat, mainLayout]
    rw [roundF_bottom_letter, roundF_right_letter]
    refine dotGridF_none_of_row _ _ _ _ _ (by rw [hst]; norm_num) ?_ fuel
    intro f
    refine dotRowF_stall _ _ _ ?_ ?_ f
    · rw [hst]
      exact hst
    · rw [hst]
      norm_num
  · refine ⟨by positivity, by norm_num, 1, -60, ?_, by norm_num, by norm_num⟩
    rw [show ((-60:ℤ)) = -((60:ℕ):ℤ) from by norm_num, zpow_neg, zpow_natCast]
    norm_num

theorem claim_C10_witness :
    (1:ℤ) ≤ 22 ∧ ((22:ℤ):ℚ) ≤ 2 ^ 52 ∧
    ∃ fuel,
      (dotGridFloat (mainLayout "Letter" (((22:ℤ)):ℚ) true) 612 792 fuel).isSome
        = true :=
  ⟨by norm_num, by norm_num, (claim_C10).2 22 (by norm_num) (by norm_num)⟩
